import Mathlib

/-!
# Verification of the edge-functions messaging core

Shallow embedding of the two core components of the repository:

* the **Queue Processor** (`supabase/functions/bulk-send-processor/index.ts`,
  found in `src/sync-templates.txt` after the separator), which drains the
  `message_queue` table, calls the WhatsApp delivery client and manages
  retry/backoff, rate-limit flags and terminal outcomes; and
* the **Assignment Scheduler** (`src/trigger-round-robin-assignment.txt`),
  which walks unassigned open conversations in chunks of 200 and assigns
  them round-robin to eligible agents per segment under an advisory lock.

Conventions of the embedding:

* Timestamps are `Nat` milliseconds (the code computes
  `Date.now() + backoff * 1000`).
* Database tables are Lean lists kept in `created_at` order, so the
  `ORDER BY created_at` of a fetch is the identity on the filtered list.
* JavaScript values that the code inspects dynamically are modelled by the
  small `JVal` type; a JS `TypeError` (e.g. calling `.map` on a non-array)
  is an `ItemStep.thrown` outcome, and `await`ed supabase calls that report
  errors through their return value are modelled by oracle fields.
* The `Map` used for the per-segment agent cache is modelled as an
  association list with replace-on-set semantics (`setCache`), which has
  the same `get`/`set` observable behaviour as the JS `Map`.
-/

namespace EdgeFn

/-! ## JavaScript value model (for `template_variables_used` etc.) -/

/-- A JavaScript value, restricted to the shapes the code inspects.
Objects are modelled by the single field (`text`) the code reads. -/
inductive JVal : Type
  | jnull : JVal
  | jbool : Bool → JVal
  | jnum : Int → JVal
  | jstr : String → JVal
  | jarr : List JVal → JVal
  | jobj : Option JVal → JVal

/-- JS truthiness of a `JVal` (`[]` and `{}` are truthy). -/
def JVal.truthy : JVal → Bool
  | .jnull => false
  | .jbool b => b
  | .jnum n => n != 0
  | .jstr s => s != ""
  | .jarr _ => true
  | .jobj _ => true

/-- JS `String(x)` conversion for the values we model. -/
def JVal.toText : JVal → String
  | .jnull => "null"
  | .jbool b => if b then "true" else "false"
  | .jnum n => toString n
  | .jstr s => s
  | .jarr xs => String.intercalate "," (xs.attach.map (fun v => JVal.toText v.1))
  | .jobj _ => "[object Object]"
decreasing_by
  have h := List.sizeOf_lt_of_mem v.2
  simp only [JVal.jarr.sizeOf_spec]
  omega

/-! ## Queue Processor data model -/

/-- One entry of a template `components` array (the fields the code touches:
`type`, `format`, `parameters`, `example`). -/
structure Component : Type where
  ctype : String
  format : Option String
  params : Option (List JVal)
  hasExample : Bool

/-- Shape of `components_json` as stored: either a JSON array of components, an object
with a `components` field, or null — the code runs
`Array.isArray(cj) ? cj : cj?.components`. -/
inductive JComps : Type
  | arr : List Component → JComps
  | obj : Option (List Component) → JComps
  | nullv : JComps

/-- Joined `message_templates_cache` row. -/
structure Tpl : Type where
  name : String
  language : String
  componentsJson : JComps

/-- Joined `business_whatsapp_numbers` row. -/
structure Biz : Type where
  wabaPhoneNumberId : String
  accessToken : String
  segment : String
  deriving DecidableEq

/-- Joined `bulk_sends` row with its two inner joins. -/
structure BulkSendJoin : Type where
  tpl : Option Tpl
  businessWhatsappNumberId : String
  biz : Option Biz

/-- Row field `template_variables_used`; the processor only reads its `body` field. -/
structure TemplateVars : Type where
  body : Option JVal

/-- The `message_queue.status` values relevant to the processor. -/
inductive QStatus : Type
  | pending | processing | retry_queued
  deriving DecidableEq

/-- One `message_queue` row as stored (fetch columns plus the status columns
the processor filters and writes). -/
structure StoredItem : Type where
  id : String
  recipient : String
  templateVariablesUsed : Option TemplateVars
  imageUrl : Option String
  attemptCount : Nat
  createdAt : Nat
  bulkSendId : String
  bulkSends : Option BulkSendJoin
  status : QStatus
  nextAttemptAt : Nat
  lastAttemptAt : Option Nat

/-- Result of `callWhatsAppApi` (the shared client catches all exceptions and
returns `success: false` with an optional `error_code`; a fetch timeout has
no code at all). -/
inductive WARes : Type
  | ok : Option String → WARes
  | err : Option Nat → WARes
  deriving DecidableEq

/-- Environment of one item's processing: the delivery result, the
`get_or_create_conversation_for_contact` RPC result (`error` message, or
the returned id which may be null), and the `insert_message` error if any. -/
structure ItemOracles : Type where
  wa : WARes
  conv : Except String (Option String)
  insertErr : Option String

/-! ## Queue Processor constants (from the source) -/

def BATCH_SIZE : Nat := 20
def MAX_RETRIES : Nat := 3
def RETRY_BACKOFF_S : List Nat := [60, 300, 1800]
def RATE_LIMIT_CODES : List Nat := [429, 471, 80007, 131047, 80004, 20]
def PERM_TEMPLATE_ERR : Nat := 470

/-! ## Queue fetch -/

/-- The fetch predicate of the queue query:
`status in (pending, retry_queued) and next_attempt_at <= now`. -/
def dueFilter (now : Nat) (it : StoredItem) : Bool :=
  (it.status == .pending || it.status == .retry_queued) && it.nextAttemptAt ≤ now

/-- The `created_at` ascending comparison used by `order("created_at")`. -/
def createdLe (a b : StoredItem) : Bool := a.createdAt ≤ b.createdAt

/-- The fetched batch: filter due rows, order by `created_at`, limit 20. -/
def fetchBatch (store : List StoredItem) (now : Nat) : List StoredItem :=
  ((store.filter (dueFilter now)).mergeSort createdLe).take BATCH_SIZE

/-! ## Per-item processing -/

/-- Observable data-store / provider actions of one item's processing, in
program order. -/
inductive Action : Type
  | markProcessing
  | waSend
  | setCapped
  | convRpc
  | insertMsg
  | upsertDetail : String → Action
  | deleteItem
  | updateRetry
  deriving DecidableEq

/-- Terminal effect of one item's processing on its queue row and outcome
record. -/
inductive Outcome : Type
  | deletedSent : Option String → Outcome
  | deletedFailed : String → Outcome
  | retryQueued : Nat → Nat → Outcome
  deriving DecidableEq

/-- Result of processing one item: either it ran to an outcome (with the
action trace and whether the channel capacity flag was set), or a JS
exception escaped after the recorded actions. -/
inductive ItemStep : Type
  | done : List Action → Bool → Outcome → ItemStep
  | thrown : List Action → String → ItemStep
  deriving DecidableEq

/-- The action trace of an `ItemStep`. -/
def ItemStep.trace : ItemStep → List Action
  | .done tr _ _ => tr
  | .thrown tr _ => tr

/-- Helper `failPermanent`: upsert a `failed` outcome record and delete the row. -/
def failPermanentStep (tr : List Action) (capped : Bool) (reason : String) :
    ItemStep :=
  .done (tr ++ [Action.upsertDetail "failed", Action.deleteItem]) capped
    (.deletedFailed reason)

/-- Helper `handleSendFailure`: permanent template error ⇒ delete; rate-limit code ⇒
set the channel capacity flag, then either exhaust (`attempt_count >=
MAX_RETRIES`) or requeue with `attempt_count + 1` and the backoff entry at
index `attempt_count` (last entry repeated past the table). -/
def handleSendFailureStep (row : StoredItem) (tr : List Action)
    (code : Option Nat) (now : Nat) : ItemStep :=
  if code = some PERM_TEMPLATE_ERR then
    failPermanentStep tr false "Template error 470"
  else
    let isRate := RATE_LIMIT_CODES.contains (code.getD 0)
    let tr := if isRate then tr ++ [Action.setCapped] else tr
    if MAX_RETRIES ≤ row.attemptCount then
      failPermanentStep tr isRate "Retries exhausted"
    else
      let backoff := (RETRY_BACKOFF_S.get? row.attemptCount).getD
        (RETRY_BACKOFF_S.getLastD 0)
      .done (tr ++ [Action.updateRetry]) isRate
        (.retryQueued (row.attemptCount + 1) (now + backoff * 1000))

/-- Semantics of `vars.body.map(...)`: succeeds on an array, throws a `TypeError` on any
other truthy value (strings/objects/numbers have no `.map`). -/
def mapBody (body : JVal) : Except String (List JVal) :=
  match body with
  | .jarr xs => .ok (xs.map (fun v =>
      .jstr (match v with
             | .jobj (some t) => t.toText
             | w => w.toText)))
  | _ => .error "vars.body.map is not a function"

/-- Whether `vars?.body` is truthy (a JS falsy body is skipped entirely). -/
def bodyTruthy (body : Option JVal) : Bool :=
  match body with
  | some v => v.truthy
  | none => false

/-- Function `buildTemplateComponents` translated from the source: with no original
components, synthesize HEADER/BODY entries; otherwise map over the original
components replacing image-header and body parameters and stripping
`example`. -/
def buildTemplateComponents (orig : Option (List Component))
    (body : Option JVal) (header : Option String) :
    Except String (Option (List Component)) := do
  match orig with
  | none | some [] =>
    if header.isNone && !(bodyTruthy body) then
      pure none
    else
      let c₁ : List Component :=
        match header with
        | some h => [⟨"HEADER", none, some [.jstr h], false⟩]
        | none => []
      let c₂ : List Component ←
        if bodyTruthy body then
          match body with
          | some v => do
              let ps ← mapBody v
              pure [⟨"BODY", none, some ps, false⟩]
          | none => pure []
        else
          pure []
      pure (some (c₁ ++ c₂))
  | some comps =>
    let comps' ← comps.mapM (fun comp => do
      let comp :=
        match header with
        | some h =>
          if comp.ctype = "HEADER" && comp.format = some "IMAGE" then
            { comp with params := some [.jstr h] }
          else comp
        | none => comp
      let comp ←
        if comp.ctype = "BODY" && bodyTruthy body then
          match body with
          | some v => do
              let ps ← mapBody v
              pure { comp with params := some ps }
          | none => pure comp
        else
          pure comp
      pure { comp with hasExample := false })
    pure (some comps')

/-- Expression `Array.isArray(cj) ? cj : cj?.components` from the source. -/
def origComps : JComps → Option (List Component)
  | .arr cs => some cs
  | .obj cs? => cs?
  | .nullv => none

/-- Whether the row's joined context is complete: `bulk_sends`, its template
and business-number joins present, and a truthy `business_whatsapp_number_id`
(the code tests `!tpl || !biz || !bwnId`). -/
def joinedComplete (row : StoredItem) : Bool :=
  match row.bulkSends with
  | none => false
  | some bs => bs.tpl.isSome && bs.biz.isSome && bs.businessWhatsappNumberId != ""

/-- Whether building the provider payload for this row would raise a JS
`TypeError` (`vars.body.map` on a non-array body). -/
def payloadBuildThrows (it : StoredItem) : Bool :=
  match it.bulkSends.bind (·.tpl) with
  | some tpl =>
    match buildTemplateComponents (origComps tpl.componentsJson)
        (it.templateVariablesUsed.bind (·.body)) it.imageUrl with
    | .error _ => true
    | .ok _ => false
  | none => false

/-- Processing of one fetched queue row, translated from the per-item body of
the `serve` loop: joined-context check, claim (`status = processing`),
payload build, delivery, classification, conversation resolution, message
insert and terminal writes. -/
def processItem (row : StoredItem) (o : ItemOracles) (now : Nat) : ItemStep :=
  match row.bulkSends with
  | none => failPermanentStep [] false "Missing joined data"
  | some bs =>
    match bs.tpl, bs.biz with
    | some tpl, some _biz =>
      if bs.businessWhatsappNumberId = "" then
        failPermanentStep [] false "Missing joined data"
      else
        let tr₀ := [Action.markProcessing]
        match buildTemplateComponents (origComps tpl.componentsJson)
            (row.templateVariablesUsed.bind (·.body)) row.imageUrl with
        | .error msg => .thrown tr₀ msg
        | .ok _comps =>
          let tr₁ := tr₀ ++ [Action.waSend]
          match o.wa with
          | .err code => handleSendFailureStep row tr₁ code now
          | .ok _mid =>
            let tr₂ := tr₁ ++ [Action.convRpc]
            match o.conv with
            | .error e =>
              failPermanentStep tr₂ false ("Conversation RPC error: " ++ e)
            | .ok none =>
              failPermanentStep tr₂ false "Conversation RPC error: undefined"
            | .ok (some _cid) =>
              .done (tr₂ ++ [Action.insertMsg, Action.upsertDetail "sent",
                  Action.deleteItem]) false
                (.deletedSent (o.insertErr.map (fun e => "DB insert failed: " ++ e)))
    | _, _ => failPermanentStep [] false "Missing joined data"

/-- Effect of an item's outcome on its stored row (`none` = row deleted). -/
def applyOutcome (it : StoredItem) (now : Nat) : Outcome → Option StoredItem
  | .deletedSent _ => none
  | .deletedFailed _ => none
  | .retryQueued a n =>
    some { it with status := .retry_queued, attemptCount := a,
                   nextAttemptAt := n, lastAttemptAt := some now }

/-- Store-level effect of processing one item: a thrown exception strands the
row as `processing`; otherwise the outcome applies. -/
def stepItem (it : StoredItem) (o : ItemOracles) (now : Nat) :
    Option StoredItem :=
  match processItem it o now with
  | .thrown _ _ => some { it with status := .processing, lastAttemptAt := some now }
  | .done _ _ outcome => applyOutcome it now outcome

/-! ## Queue run (whole invocation) -/

/-- Result of one Queue Processor invocation: the initial fetch failed
(`QUEUE_FETCH_ERROR`), nothing was due (`NO_WORK`), an unhandled exception
escaped the per-item loop (with the items fully processed before it), or all
items ran to an outcome. -/
inductive QueueRunResult : Type
  | fetchError : QueueRunResult
  | noWork : QueueRunResult
  | crashed : List (String × Outcome) → String → String → QueueRunResult
  | completed : List (String × Outcome) → QueueRunResult
  deriving DecidableEq

/-- The per-item loop: there is no try/catch around an item, so the first
thrown exception aborts the invocation. -/
def runItems (orc : String → ItemOracles) (now : Nat) :
    List StoredItem → List (String × Outcome) → QueueRunResult
  | [], acc => .completed acc
  | it :: rest, acc =>
    match processItem it (orc it.id) now with
    | .done _ _ outcome => runItems orc now rest (acc ++ [(it.id, outcome)])
    | .thrown _ msg => .crashed acc it.id msg

/-- One Queue Processor invocation over an already-fetched batch result. -/
def runQueue (fetched : Except String (List StoredItem))
    (orc : String → ItemOracles) (now : Nat) : QueueRunResult :=
  match fetched with
  | .error _ => .fetchError
  | .ok [] => .noWork
  | .ok items => runItems orc now items []

/-! ## Assignment Scheduler data model -/

/-- The `conversations.status` values as seen by the scheduler's scan. -/
inductive ConvStatus : Type
  | opn | closed
  deriving DecidableEq

/-- One `conversations` row (the columns the scheduler reads or writes). -/
structure Conversation : Type where
  id : String
  segment : String
  version : Nat
  createdAt : Nat
  status : ConvStatus
  assignedAgentId : Option String
  deriving DecidableEq

/-- One `profile` row (the columns of the roster query). -/
structure Profile : Type where
  id : String
  role : String
  isActive : Bool
  presentToday : Bool
  segment : String
  lastChatAssignedAt : Option Nat
  deriving DecidableEq

/-- A cached roster: the ordered eligible-agent ids and the rotating cursor. -/
structure RosterEntry : Type where
  list : List String
  idx : Nat
  deriving DecidableEq

/-- One entry of `failedAssignments`. -/
structure FailedAssignment : Type where
  cid : String
  aid : Option String
  reason : String
  deriving DecidableEq

/-- Environment of one scheduler run: whether each
`assign_conversation_and_update_related` call succeeds, whether the roster
fetch for a segment errors, and whether the k-th conversation fetch errors. -/
structure SchedOracle : Type where
  rpcOk : String → String → Bool
  agentsErr : String → Bool
  convFetchErr : Nat → Bool

/-- Scheduler run state: the two tables plus the run-scoped agent cache,
counters and the trace of assignment RPC calls `(conversationId, agentId)`
made so far. -/
structure SchedState : Type where
  convs : List Conversation
  profiles : List Profile
  cache : List (String × RosterEntry)
  assignedCount : Nat
  failed : List FailedAssignment
  rpcTrace : List (String × String)
  deriving DecidableEq

/-- Fresh run state over given tables. -/
def initState (convs : List Conversation) (profiles : List Profile) :
    SchedState :=
  ⟨convs, profiles, [], 0, [], []⟩

/-! ## Roster fetch -/

/-- The roster query's filter: `role in (agent, team_leader) and is_active
and present_today and segment = s`. -/
def eligibleFor (s : String) (p : Profile) : Bool :=
  (p.role == "agent" || p.role == "team_leader") &&
    p.isActive && p.presentToday && p.segment == s

/-- Ordering `order("last_chat_assigned_at", ascending, nullsFirst)`: `null` sorts
before every timestamp. -/
def keyLe (a b : Option Nat) : Bool :=
  match a, b with
  | none, _ => true
  | some _, none => false
  | some x, some y => x ≤ y

/-- The eligible roster of a segment, ordered by `last_chat_assigned_at`
ascending with nulls first. -/
def rosterOf (profiles : List Profile) (s : String) : List Profile :=
  (profiles.filter (eligibleFor s)).mergeSort
    (fun p q => keyLe p.lastChatAssignedAt q.lastChatAssignedAt)

/-- The roster's agent ids in order. -/
def rosterIds (profiles : List Profile) (s : String) : List String :=
  (rosterOf profiles s).map (·.id)

/-! ## Agent cache (the JS `Map`) -/

/-- Lookup `agentCache.get(segment)`. -/
def lookupCache (c : List (String × RosterEntry)) (s : String) :
    Option RosterEntry :=
  (c.find? (fun kv => kv.1 == s)).map (·.2)

/-- Update `agentCache.set(segment, entry)` (replace-on-set). -/
def setCache (c : List (String × RosterEntry)) (s : String)
    (e : RosterEntry) : List (String × RosterEntry) :=
  (s, e) :: c.filter (fun kv => kv.1 != s)

/-! ## Conversation fetch -/

/-- Constant `CHUNK_SIZE` from the source. -/
def CHUNK_SIZE : Nat := 200

/-- The scan predicate: `status = open and assigned_agent_id is null`,
optionally `segment = targetSegment`. -/
def fetchPred (seg? : Option String) (c : Conversation) : Bool :=
  c.status == .opn && c.assignedAgentId.isNone &&
    (match seg? with
     | none => true
     | some s => c.segment == s)

/-- One chunk fetch: filter (the store list is kept in `created_at` order)
and limit `CHUNK_SIZE`. -/
def fetchChunk (st : SchedState) (seg? : Option String) : List Conversation :=
  (st.convs.filter (fetchPred seg?)).take CHUNK_SIZE

/-! ## Per-conversation processing -/

/-- The selection-and-commit part of the loop body, given the segment's
cache entry: skip with a failure if the roster is empty; otherwise select
the agent at the cursor, advance the cursor modulo the roster length, then
call the assignment RPC; a success marks the conversation assigned (and
bumps its version), a failure is recorded and the row is left unchanged. -/
def withEntry (oracle : SchedOracle) (st : SchedState) (c : Conversation)
    (e : RosterEntry) : SchedState :=
  if e.list.isEmpty then
    { st with failed := st.failed ++
        [⟨c.id, none, "No available agents in segment " ++ c.segment⟩] }
  else
    let agent := e.list.getD e.idx ""
    let st := { st with
      cache := setCache st.cache c.segment ⟨e.list, (e.idx + 1) % e.list.length⟩,
      rpcTrace := st.rpcTrace ++ [(c.id, agent)] }
    if oracle.rpcOk c.id agent then
      { st with
        convs := st.convs.map (fun v =>
          if v.id = c.id then
            { v with assignedAgentId := some agent, version := v.version + 1 }
          else v),
        assignedCount := st.assignedCount + 1 }
    else
      { st with failed := st.failed ++ [⟨c.id, some agent, "rpc error"⟩] }

/-- The loop body for one conversation: fetch-and-cache the segment roster on
first encounter (a roster-fetch error records a failure and, as in the
source's `continue`, leaves the cache unset), then select and commit. -/
def processConvo (oracle : SchedOracle) (st : SchedState)
    (c : Conversation) : SchedState :=
  match lookupCache st.cache c.segment with
  | none =>
    if oracle.agentsErr c.segment then
      { st with failed := st.failed ++
          [⟨c.id, none, "Failed to fetch agents for segment " ++ c.segment⟩] }
    else
      let entry : RosterEntry := ⟨rosterIds st.profiles c.segment, 0⟩
      withEntry oracle { st with cache := setCache st.cache c.segment entry }
        c entry
  | some e => withEntry oracle st c e

/-! ## Chunk loop -/

/-- Outcome of the chunked `while` loop: a conversation fetch errored
(`DB_ERROR`), the loop finished (a fetch returned fewer than `CHUNK_SIZE`
rows), or the fuel ran out — the model's witness of non-termination. -/
inductive LoopOut : Type
  | fetchErr : SchedState → LoopOut
  | finished : SchedState → LoopOut
  | fuelOut : SchedState → LoopOut
  deriving DecidableEq

/-- The state carried by a `LoopOut`. -/
def LoopOut.state : LoopOut → SchedState
  | .fetchErr st => st
  | .finished st => st
  | .fuelOut st => st

/-- Whether the loop actually completed. -/
def LoopOut.isFinished : LoopOut → Bool
  | .finished _ => true
  | _ => false

/-- The chunked scan: fetch up to `CHUNK_SIZE` due conversations, stop when a
fetch returns none, otherwise process the chunk and continue only when the
chunk was full (`moreConversationsToProcess = length === CHUNK_SIZE`).
`k` counts the fetches (feeding `convFetchErr`); `fuel` bounds the number of
iterations the model unfolds. -/
def runLoop (oracle : SchedOracle) (seg? : Option String) :
    Nat → Nat → SchedState → LoopOut
  | 0, _, st => .fuelOut st
  | fuel + 1, k, st =>
    if oracle.convFetchErr k then .fetchErr st
    else
      let chunk := fetchChunk st seg?
      if chunk.length = 0 then .finished st
      else
        let st' := chunk.foldl (processConvo oracle) st
        if chunk.length = CHUNK_SIZE then runLoop oracle seg? fuel (k + 1) st'
        else .finished st'

/-! ## Handler (from lock acquisition on) -/

/-- Result of the `pg_try_advisory_xact_lock` RPC. -/
inductive LockResult : Type
  | err : String → LockResult
  | acquired : Bool → LockResult
  deriving DecidableEq

/-- Scheduler response, from lock acquisition onward. `diverged` is the
model artifact for a loop that did not terminate within its fuel. -/
inductive SchedResponse : Type
  | lockError : SchedResponse
  | runningElsewhere : SchedResponse
  | dbError : SchedResponse
  | completed : Nat → Nat → SchedResponse
  | diverged : SchedResponse
  deriving DecidableEq

/-- The handler from the advisory-lock step on: a lock RPC error returns
`LOCK_ERROR`; a `false` acquisition returns `RUNNING_ELSEWHERE` immediately;
otherwise the chunk loop runs. Paired with the assignment RPC calls made. -/
def schedulerHandler (lock : LockResult) (oracle : SchedOracle)
    (seg? : Option String) (fuel : Nat) (st : SchedState) :
    SchedResponse × List (String × String) :=
  match lock with
  | .err _ => (.lockError, [])
  | .acquired false => (.runningElsewhere, [])
  | .acquired true =>
    match runLoop oracle seg? fuel 0 st with
    | .fetchErr st' => (.dbError, st'.rpcTrace)
    | .finished st' => (.completed st'.assignedCount st'.failed.length, st'.rpcTrace)
    | .fuelOut st' => (.diverged, st'.rpcTrace)

/-! ## Shared fixtures for witnesses and counterexamples -/

/-- A queue row with complete joined context. -/
def wBase : StoredItem :=
  { id := "q1", recipient := "+10000000001", templateVariablesUsed := none,
    imageUrl := none, attemptCount := 2, createdAt := 10, bulkSendId := "b1",
    bulkSends := some
      { tpl := some { name := "t", language := "en", componentsJson := .nullv },
        businessWhatsappNumberId := "bwn1",
        biz := some { wabaPhoneNumberId := "w", accessToken := "tok",
                      segment := "s" } },
    status := .retry_queued, nextAttemptAt := 0, lastAttemptAt := none }

/-- Oracle for a timed-out delivery (the shared client catches the fetch
exception and reports failure with no error code). -/
def oTimeout : ItemOracles :=
  { wa := .err none, conv := .ok (some "c1"), insertErr := none }

/-- Oracle for a rate-limited delivery (provider code 429). -/
def oRate : ItemOracles :=
  { wa := .err (some 429), conv := .ok (some "c1"), insertErr := none }

/-! # Claims -/

/-- C8: Whenever the advisory-lock acquisition returns `false`, the
Assignment Scheduler returns the `RUNNING_ELSEWHERE` ("running elsewhere")
response immediately, and no assignment RPC is ever called in that run. -/
theorem C8_lock_not_acquired (lock : LockResult) (oracle : SchedOracle)
    (seg? : Option String) (fuel : Nat) (st : SchedState)
    (h : lock = .acquired false) :
    schedulerHandler lock oracle seg? fuel st = (.runningElsewhere, []) := by
  subst h; rfl

/-- Witness for C8 at a concrete run configuration. -/
theorem C8_lock_not_acquired_witness :
    schedulerHandler (.acquired false)
      ⟨fun _ _ => true, fun _ => false, fun _ => false⟩ none 5
      (initState [] []) = (.runningElsewhere, []) :=
  C8_lock_not_acquired _ _ _ _ _ rfl


/-- C6: For every queue item, `attempt_count` never decreases under the
per-item step, never exceeds `MAX_RETRIES` (3) while the row still exists,
is incremented only when the prior value is strictly below `MAX_RETRIES`,
and a row whose `attempt_count` has reached `MAX_RETRIES` is never
requeued (`retry_queued`) — it is deleted as a permanent failure. -/
theorem C6_attempt_count_invariant (it : StoredItem) (o : ItemOracles) (now : Nat)
    (it' : StoredItem) (h : stepItem it o now = some it') :
    it.attemptCount ≤ it'.attemptCount ∧
    (it.attemptCount ≤ MAX_RETRIES → it'.attemptCount ≤ MAX_RETRIES) ∧
    (it'.attemptCount ≠ it.attemptCount →
      it'.attemptCount = it.attemptCount + 1 ∧ it.attemptCount < MAX_RETRIES) ∧
    (MAX_RETRIES ≤ it.attemptCount → it'.status ≠ QStatus.retry_queued) := by
  unfold stepItem processItem at h
  rcases it with ⟨iid, irec, itv, iimg, iac, ica, ibsid, ibs, ist, inaa, ilaa⟩
  cases ibs with
  | none =>
    simp [failPermanentStep, applyOutcome] at h
  | some bs =>
    rcases bs with ⟨tpl?, bwn, biz?⟩
    cases tpl? with
    | none => cases biz? <;> simp [failPermanentStep, applyOutcome] at h
    | some tpl =>
      cases biz? with
      | none => simp [failPermanentStep, applyOutcome] at h
      | some biz =>
        simp only at h
        by_cases hb : bwn = ""
        · simp [hb, failPermanentStep, applyOutcome] at h
        · rw [if_neg hb] at h
          cases hbc :
              buildTemplateComponents (origComps tpl.componentsJson)
                (itv.bind (·.body)) iimg with
          | error msg =>
            rw [hbc] at h
            simp only [applyOutcome] at h
            injection h with h
            subst h
            simp
          | ok comps =>
            rw [hbc] at h
            try dsimp only at h
            cases hwa : o.wa with
            | ok mid =>
              rw [hwa] at h
              try dsimp only at h
              cases hcv : o.conv with
              | error e =>
                rw [hcv] at h
                try dsimp only at h
                simp [failPermanentStep, applyOutcome] at h
              | ok cid? =>
                rw [hcv] at h
                try dsimp only at h
                cases cid? <;> simp [failPermanentStep, applyOutcome, ] at h
            | err code =>
              rw [hwa] at h
              try dsimp only at h
              unfold handleSendFailureStep at h
              by_cases h470 : code = some PERM_TEMPLATE_ERR
              · simp [h470, failPermanentStep, applyOutcome] at h
              · rw [if_neg h470] at h
                simp only at h
                by_cases hmax : MAX_RETRIES ≤ iac
                · rw [if_pos hmax] at h
                  simp [failPermanentStep, applyOutcome] at h
                · rw [if_neg hmax] at h
                  simp only [applyOutcome] at h
                  injection h with h
                  subst h
                  simp [MAX_RETRIES] at hmax ⊢
                  omega

/-- The row produced by retrying `wBase` (attempt 2, timeout) at time 5. -/
def wRetried : StoredItem :=
  { wBase with status := .retry_queued, attemptCount := 3,
               nextAttemptAt := 1800005, lastAttemptAt := some 5 }

/-- Witness for C6: a concrete retried row. -/
theorem C6_attempt_count_invariant_witness :
    wBase.attemptCount ≤ wRetried.attemptCount ∧
    (wBase.attemptCount ≤ MAX_RETRIES → wRetried.attemptCount ≤ MAX_RETRIES) ∧
    (wRetried.attemptCount ≠ wBase.attemptCount →
      wRetried.attemptCount = wBase.attemptCount + 1 ∧
      wBase.attemptCount < MAX_RETRIES) ∧
    (MAX_RETRIES ≤ wBase.attemptCount → wRetried.status ≠ QStatus.retry_queued) :=
  C6_attempt_count_invariant wBase oTimeout 5 wRetried rfl


/-- A row that fails the due-filter at time `t` is never in the fetched
batch of a run at time `t`. -/
lemma not_mem_fetchBatch_of_not_due (x : StoredItem) (t : Nat)
    (h : dueFilter t x = false) (store : List StoredItem) :
    x ∉ fetchBatch store t := by
  intro hmem
  have h1 := List.mem_of_mem_take hmem
  have h2 := (List.mergeSort_perm (store.filter (dueFilter t)) createdLe).mem_iff.mp h1
  have h3 := List.of_mem_filter h2
  rw [h] at h3
  exact Bool.false_ne_true h3

/-- C1: A queue item with `attempt_count = 2` (and `MAX_RETRIES = 3`)
whose delivery fails with any non-permanent provider error (e.g. a timeout,
reported with no error code) becomes `retry_queued` with `attempt_count = 3`
and `next_attempt_at = now + 1800` seconds (the last backoff entry, in
milliseconds here); and no run starting before that time selects it into
its fetched batch. -/
theorem C1_transient_failure_backoff_and_exclusion (it : StoredItem) (o : ItemOracles) (now : Nat)
    (code? : Option Nat)
    (hj : joinedComplete it = true)
    (hth : payloadBuildThrows it = false)
    (h2 : it.attemptCount = 2)
    (hwa : o.wa = .err code?)
    (hc : code? ≠ some PERM_TEMPLATE_ERR) :
    ∃ it', stepItem it o now = some it' ∧
      it'.status = .retry_queued ∧
      it'.attemptCount = 3 ∧
      it'.nextAttemptAt = now + 1800 * 1000 ∧
      ∀ t, t < now + 1800 * 1000 →
        dueFilter t it' = false ∧ ∀ store, it' ∉ fetchBatch store t := by
  rcases it with ⟨iid, irec, itv, iimg, iac, ica, ibsid, ibs, ist, inaa, ilaa⟩
  simp only at h2
  subst h2
  cases ibs with
  | none => simp [joinedComplete] at hj
  | some bs =>
    rcases bs with ⟨tpl?, bwn, biz?⟩
    cases tpl? with
    | none => simp [joinedComplete] at hj
    | some tpl =>
      cases biz? with
      | none => simp [joinedComplete] at hj
      | some biz =>
        simp only [joinedComplete, Bool.and_eq_true, bne_iff_ne] at hj
        unfold stepItem processItem
        dsimp only
        rw [if_neg hj.2]
        simp only [payloadBuildThrows, Option.some_bind] at hth
        cases hbc : buildTemplateComponents (origComps tpl.componentsJson)
            (itv.bind (·.body)) iimg with
        | error msg => exfalso; rw [hbc] at hth; simp at hth
        | ok comps =>
          dsimp only
          rw [hwa]
          try dsimp only
          unfold handleSendFailureStep
          rw [if_neg hc]
          simp only [MAX_RETRIES, RETRY_BACKOFF_S, applyOutcome]
          refine ⟨_, rfl, rfl, rfl, rfl, ?_⟩
          intro t ht
          have hdf : dueFilter t
              { id := iid, recipient := irec, templateVariablesUsed := itv,
                imageUrl := iimg, attemptCount := 2 + 1, createdAt := ica,
                bulkSendId := ibsid,
                bulkSends := some ⟨some tpl, bwn, some biz⟩,
                status := QStatus.retry_queued,
                nextAttemptAt := now + 1800 * 1000,
                lastAttemptAt := some now } = false := by
            simp [dueFilter]
            omega
          exact ⟨hdf, fun store => not_mem_fetchBatch_of_not_due _ _ hdf store⟩

/-- Witness for C1: `wBase` (attempt 2) timed out at time 0. -/
theorem C1_transient_failure_backoff_and_exclusion_witness :
    ∃ it', stepItem wBase oTimeout 0 = some it' ∧
      it'.status = .retry_queued ∧
      it'.attemptCount = 3 ∧
      it'.nextAttemptAt = 0 + 1800 * 1000 ∧
      ∀ t, t < 0 + 1800 * 1000 →
        dueFilter t it' = false ∧ ∀ store, it' ∉ fetchBatch store t :=
  C1_transient_failure_backoff_and_exclusion wBase oTimeout 0 none rfl rfl
    rfl rfl (by decide)

/-- C7: A provider rate-limit error code on an item whose
`attempt_count` was 0 sets the channel capacity flag
(`is_rate_capped_today`) and requeues the item as `retry_queued` with
`attempt_count = 1` and `next_attempt_at` advanced by the first backoff
interval (60 seconds). -/
theorem C7_rate_limited_flag_and_first_backoff (it : StoredItem) (o : ItemOracles) (now : Nat) (c : Nat)
    (hj : joinedComplete it = true)
    (hth : payloadBuildThrows it = false)
    (h0 : it.attemptCount = 0)
    (hwa : o.wa = .err (some c))
    (hrl : c ∈ RATE_LIMIT_CODES) :
    ∃ tr, processItem it o now =
        .done tr true (.retryQueued 1 (now + 60 * 1000)) ∧
      Action.setCapped ∈ tr := by
  rcases it with ⟨iid, irec, itv, iimg, iac, ica, ibsid, ibs, ist, inaa, ilaa⟩
  simp only at h0
  subst h0
  cases ibs with
  | none => simp [joinedComplete] at hj
  | some bs =>
    rcases bs with ⟨tpl?, bwn, biz?⟩
    cases tpl? with
    | none => simp [joinedComplete] at hj
    | some tpl =>
      cases biz? with
      | none => simp [joinedComplete] at hj
      | some biz =>
        simp only [joinedComplete, Bool.and_eq_true, bne_iff_ne] at hj
        simp only [RATE_LIMIT_CODES, List.mem_cons, List.not_mem_nil,
          or_false] at hrl
        unfold processItem
        dsimp only
        rw [if_neg hj.2]
        simp only [payloadBuildThrows, Option.some_bind] at hth
        cases hbc : buildTemplateComponents (origComps tpl.componentsJson)
            (itv.bind (·.body)) iimg with
        | error msg => exfalso; rw [hbc] at hth; simp at hth
        | ok comps =>
          dsimp only
          rw [hwa]
          dsimp only
          unfold handleSendFailureStep
          rcases hrl with rfl | rfl | rfl | rfl | rfl | rfl <;>
            exact ⟨_, rfl, by decide⟩

/-- Witness for C7: `wBase` at attempt 0 hit provider code 429 at time 7. -/
theorem C7_rate_limited_flag_and_first_backoff_witness :
    ∃ tr, processItem { wBase with attemptCount := 0 } oRate 7 =
        .done tr true (.retryQueued 1 (7 + 60 * 1000)) ∧
      Action.setCapped ∈ tr :=
  C7_rate_limited_flag_and_first_backoff { wBase with attemptCount := 0 }
    oRate 7 429 rfl rfl rfl rfl (by decide)


/-- A queue row whose `bulk_sends` join is missing entirely. -/
def cNoJoin : StoredItem := { wBase with bulkSends := none }

/-- C3 counterexample: The claim says an item whose required joined
configuration is missing "has already been marked processing when it is
classified as a permanent failure". On this concrete item with a missing
`bulk_sends` join, processing performs only the permanent-failure writes;
`markProcessing` never occurs in its action trace: the joined-context check
runs *before* the claim step. -/
theorem C3_claim_vs_code_counterexample :
    (processItem cNoJoin oTimeout 0).trace =
      [Action.upsertDetail "failed", Action.deleteItem] ∧
    Action.markProcessing ∉ (processItem cNoJoin oTimeout 0).trace := by
  exact ⟨rfl, by decide⟩

/-- C3 (amended): The joined-context check precedes the Claim step: an
item whose required joined configuration is missing is classified a
permanent failure *without ever being marked processing*; for items whose
joined context is complete, the Claim step (`status = processing`) is the
first action, performed before every later sub-step. -/
theorem C3_claim_after_join_check (row : StoredItem) (o : ItemOracles) (now : Nat) :
    (joinedComplete row = false →
      (processItem row o now).trace =
        [Action.upsertDetail "failed", Action.deleteItem]) ∧
    (joinedComplete row = true →
      ∃ rest, (processItem row o now).trace = Action.markProcessing :: rest ∧
        Action.markProcessing ∉ rest) := by
  rcases row with ⟨iid, irec, itv, iimg, iac, ica, ibsid, ibs, ist, inaa, ilaa⟩
  cases ibs with
  | none => exact ⟨fun _ => rfl, by simp [joinedComplete]⟩
  | some bs =>
    rcases bs with ⟨tpl?, bwn, biz?⟩
    cases tpl? with
    | none => exact ⟨fun _ => rfl, by simp [joinedComplete]⟩
    | some tpl =>
      cases biz? with
      | none => exact ⟨fun _ => rfl, by simp [joinedComplete]⟩
      | some biz =>
        by_cases hb : bwn = ""
        · constructor
          · intro _
            unfold processItem
            dsimp only
            rw [if_pos hb]
            rfl
          · intro hj
            exfalso
            simp [joinedComplete, hb] at hj
        · constructor
          · intro hj
            exfalso
            simp [joinedComplete, hb] at hj
          · intro _
            unfold processItem
            dsimp only
            rw [if_neg hb]
            cases hbc : buildTemplateComponents (origComps tpl.componentsJson)
                (itv.bind (·.body)) iimg with
            | error msg => exact ⟨[], rfl, by decide⟩
            | ok comps =>
              dsimp only
              cases hw : o.wa with
              | ok mid =>
                dsimp only
                cases hcv : o.conv with
                | error e => exact ⟨_, rfl, by decide⟩
                | ok cid? => cases cid? <;> exact ⟨_, rfl, by decide⟩
              | err code =>
                dsimp only
                unfold handleSendFailureStep
                by_cases h470 : code = some PERM_TEMPLATE_ERR
                · rw [if_pos h470]; exact ⟨_, rfl, by decide⟩
                · rw [if_neg h470]
                  dsimp only
                  by_cases hrate : RATE_LIMIT_CODES.contains (code.getD 0)
                  · simp only [hrate, if_true]
                    by_cases hmx : MAX_RETRIES ≤ iac
                    · rw [if_pos hmx]; exact ⟨_, rfl, by decide⟩
                    · rw [if_neg hmx]; exact ⟨_, rfl, by decide⟩
                  · simp only [Bool.not_eq_true] at hrate
                    simp only [hrate, if_false]
                    by_cases hmx : MAX_RETRIES ≤ iac
                    · rw [if_pos hmx]; exact ⟨_, rfl, by decide⟩
                    · rw [if_neg hmx]; exact ⟨_, rfl, by decide⟩

/-- Witness for the amended C3 on a concrete item with complete joined
context. -/
theorem C3_claim_after_join_check_witness :
    ∃ rest, (processItem wBase oTimeout 0).trace =
        Action.markProcessing :: rest ∧
      Action.markProcessing ∉ rest :=
  (C3_claim_after_join_check wBase oTimeout 0).2 rfl


/-- A queue row whose `template_variables_used.body` is a number: JS
`vars.body.map(...)` throws a `TypeError` on it. -/
def cThrow : StoredItem :=
  { wBase with id := "qa", templateVariablesUsed := some ⟨some (.jnum 1)⟩ }

/-- A well-formed queue row. -/
def cGood : StoredItem := { wBase with id := "qb" }

/-- C4 counterexample: The claim says an unexpected per-item exception
is trapped and the remaining items are processed. On this concrete batch the
first item throws while building the payload and the invocation crashes with
*no* items processed — the second item is never reached (the queue loop has
no per-item try/catch). -/
theorem C4_claim_vs_code_counterexample :
    runQueue (.ok [cThrow, cGood]) (fun _ => oTimeout) 0 =
      .crashed [] "qa" "vars.body.map is not a function" := by
  rfl

/-- Every scanned conversation contributes exactly one assignment or one
recorded failure. -/
lemma processConvo_one (oracle : SchedOracle) (st : SchedState)
    (c : Conversation) :
    (processConvo oracle st c).assignedCount +
      (processConvo oracle st c).failed.length =
    st.assignedCount + st.failed.length + 1 := by
  unfold processConvo withEntry
  split
  · split
    · simp
      omega
    · dsimp only
      split
      · simp
        omega
      · try dsimp only
        split <;> (simp; try omega)
  · split
    · simp
      omega
    · try dsimp only
      split <;> (simp; try omega)

/-- If every item of the batch runs to a classified outcome, the per-item
loop completes and reports one outcome per item, in order. -/
lemma runItems_all_done (orc : String → ItemOracles) (now : Nat) :
    ∀ (items : List StoredItem) (acc : List (String × Outcome)),
      (∀ it ∈ items, ∃ tr c oc, processItem it (orc it.id) now = .done tr c oc) →
      ∃ prs, runItems orc now items acc = .completed (acc ++ prs) ∧
        prs.map Prod.fst = items.map (·.id) := by
  intro items
  induction items with
  | nil => intro acc _; exact ⟨[], by simp [runItems], rfl⟩
  | cons it rest ih =>
    intro acc hall
    obtain ⟨tr, c, oc, hdone⟩ := hall it (by simp)
    obtain ⟨prs, hrun, hmap⟩ := ih (acc ++ [(it.id, oc)])
      (fun x hx => hall x (by simp [hx]))
    refine ⟨(it.id, oc) :: prs, ?_, by simp [hmap]⟩
    unfold runItems
    rw [hdone]
    simpa using hrun

/-- The first thrown exception aborts the loop: items before it are
processed, the thrower and everything after it are not. -/
lemma runItems_crash (orc : String → ItemOracles) (now : Nat)
    (it₀ : StoredItem) (post : List StoredItem) (tr : List Action)
    (msg : String) (hth : processItem it₀ (orc it₀.id) now = .thrown tr msg) :
    ∀ (pre : List StoredItem) (acc : List (String × Outcome)),
      (∀ it ∈ pre, ∃ tr' c oc, processItem it (orc it.id) now = .done tr' c oc) →
      ∃ prs, runItems orc now (pre ++ it₀ :: post) acc =
          .crashed (acc ++ prs) it₀.id msg ∧
        prs.map Prod.fst = pre.map (·.id) := by
  intro pre
  induction pre with
  | nil =>
    intro acc _
    refine ⟨[], ?_, rfl⟩
    simp only [List.nil_append]
    unfold runItems
    rw [hth]
    simp
  | cons it rest ih =>
    intro acc hall
    obtain ⟨tr', c, oc, hdone⟩ := hall it (by simp)
    obtain ⟨prs, hrun, hmap⟩ := ih (acc ++ [(it.id, oc)])
      (fun x hx => hall x (by simp [hx]))
    refine ⟨(it.id, oc) :: prs, ?_, by simp [hmap]⟩
    simp only [List.cons_append]
    unfold runItems
    rw [hdone]
    simpa using hrun

/-- C4 (amended): Classified per-item failures do not abort a batch:
(1) a Queue Processor batch whose items all reach a classified outcome
(success, permanent failure or retry — including missing joined data and
provider/RPC errors) completes with one outcome per item; but
(2) a genuinely unexpected exception in one item aborts the invocation —
exactly the items before it are processed and the rest are skipped; and
(3) in the Assignment Scheduler every scanned conversation is either
assigned or recorded as a per-item failure (classified failures never abort
the chunk loop). -/
theorem C4_no_per_item_trap_for_exceptions :
    (∀ (items : List StoredItem) (orc : String → ItemOracles) (now : Nat),
      items ≠ [] →
      (∀ it ∈ items, ∃ tr c oc, processItem it (orc it.id) now = .done tr c oc) →
      ∃ prs, runQueue (.ok items) orc now = .completed prs ∧
        prs.map Prod.fst = items.map (·.id)) ∧
    (∀ (pre : List StoredItem) (it₀ : StoredItem) (post : List StoredItem)
        (orc : String → ItemOracles) (now : Nat) (tr : List Action) (msg : String),
      (∀ it ∈ pre, ∃ tr' c oc, processItem it (orc it.id) now = .done tr' c oc) →
      processItem it₀ (orc it₀.id) now = .thrown tr msg →
      ∃ prs, runQueue (.ok (pre ++ it₀ :: post)) orc now =
          .crashed prs it₀.id msg ∧
        prs.map Prod.fst = pre.map (·.id)) ∧
    (∀ (oracle : SchedOracle) (L : List Conversation) (st : SchedState),
      (L.foldl (processConvo oracle) st).assignedCount +
        (L.foldl (processConvo oracle) st).failed.length =
      st.assignedCount + st.failed.length + L.length) := by
  refine ⟨?_, ?_, ?_⟩
  · intro items orc now hne hall
    obtain ⟨prs, hrun, hmap⟩ := runItems_all_done orc now items [] hall
    cases items with
    | nil => exact absurd rfl hne
    | cons a as => exact ⟨prs, by simpa [runQueue] using hrun, hmap⟩
  · intro pre it₀ post orc now tr msg hall hth
    obtain ⟨prs, hrun, hmap⟩ := runItems_crash orc now it₀ post tr msg hth pre [] hall
    cases hpre : pre ++ it₀ :: post with
    | nil => simp at hpre
    | cons a as =>
      refine ⟨prs, ?_, hmap⟩
      rw [hpre] at hrun
      simpa [runQueue, hpre] using hrun
  · intro oracle L
    induction L with
    | nil => intro st; simp
    | cons c rest ih =>
      intro st
      simp only [List.foldl_cons, List.length_cons]
      rw [ih (processConvo oracle st c)]
      have := processConvo_one oracle st c
      omega

/-- Witness for the amended C4: a good item followed by a throwing item —
the good one is processed, the run crashes at the thrower. -/
theorem C4_no_per_item_trap_for_exceptions_witness :
    ∃ prs, runQueue (.ok ([cGood] ++ cThrow :: [])) (fun _ => oTimeout) 0 =
        .crashed prs "qa" "vars.body.map is not a function" ∧
      prs.map Prod.fst = [cGood].map (·.id) :=
  C4_no_per_item_trap_for_exceptions.2.1 [cGood] cThrow [] (fun _ => oTimeout)
    0 [Action.markProcessing] "vars.body.map is not a function"
    (by
      intro it hx
      rw [List.mem_singleton] at hx
      subst hx
      exact ⟨_, _, _, rfl⟩)
    rfl


/-- The components of the scheduler state that determine the chunk loop's
control flow: the conversations, the profiles and the agent cache. -/
def coreOf (st : SchedState) :
    List Conversation × List Profile × List (String × RosterEntry) :=
  (st.convs, st.profiles, st.cache)

/-- The chunk fetch depends only on the state's core. -/
lemma fetchChunk_congr {st₁ st₂ : SchedState} (seg? : Option String)
    (h : coreOf st₁ = coreOf st₂) : fetchChunk st₁ seg? = fetchChunk st₂ seg? := by
  unfold fetchChunk
  have : st₁.convs = st₂.convs := congrArg Prod.fst h
  rw [this]

/-- The core after processing a conversation depends only on the core
before (counters, failure list and RPC trace never feed back into it). -/
lemma processConvo_core_congr (oracle : SchedOracle) (c : Conversation)
    {st₁ st₂ : SchedState} (h : coreOf st₁ = coreOf st₂) :
    coreOf (processConvo oracle st₁ c) = coreOf (processConvo oracle st₂ c) := by
  have h1 : st₁.convs = st₂.convs := congrArg Prod.fst h
  have h2 : st₁.profiles = st₂.profiles := congrArg (Prod.fst ∘ Prod.snd) h
  have h3 : st₁.cache = st₂.cache := congrArg (Prod.snd ∘ Prod.snd) h
  unfold processConvo withEntry
  rw [h1, h2, h3]
  split
  · split
    · simp [coreOf]
    · dsimp only
      split
      · simp [coreOf]
      · try dsimp only
        split <;> simp [coreOf]
  · split
    · simp [coreOf]
    · try dsimp only
      split <;> simp [coreOf]

lemma foldl_core_congr (oracle : SchedOracle) :
    ∀ (L : List Conversation) {st₁ st₂ : SchedState},
      coreOf st₁ = coreOf st₂ →
      coreOf (L.foldl (processConvo oracle) st₁) =
        coreOf (L.foldl (processConvo oracle) st₂) := by
  intro L
  induction L with
  | nil => intro st₁ st₂ h; simpa using h
  | cons c rest ih =>
    intro st₁ st₂ h
    simp only [List.foldl_cons]
    exact ih (processConvo_core_congr oracle c h)

/-- If processing one full chunk leaves the state's core unchanged, the
chunk loop never finishes: every iteration refetches the same full chunk. -/
lemma runLoop_never_finishes (oracle : SchedOracle) (seg? : Option String)
    (hcf : ∀ k, oracle.convFetchErr k = false) :
    ∀ (fuel k : Nat) (st : SchedState),
      (fetchChunk st seg?).length = CHUNK_SIZE →
      coreOf ((fetchChunk st seg?).foldl (processConvo oracle) st) = coreOf st →
      ∃ st', runLoop oracle seg? fuel k st = .fuelOut st' := by
  intro fuel
  induction fuel with
  | zero => intro k st _ _; exact ⟨st, rfl⟩
  | succ n ih =>
    intro k st hlen hstep
    unfold runLoop
    rw [hcf k]
    have hne : ¬((fetchChunk st seg?).length = 0) := by
      rw [hlen]; decide
    simp only [Bool.false_eq_true, if_false, hne, hlen, if_true, if_neg hne]
    have hch : fetchChunk ((fetchChunk st seg?).foldl (processConvo oracle) st)
        seg? = fetchChunk st seg? := fetchChunk_congr seg? hstep
    apply ih (k + 1)
    · rw [hch, hlen]
    · rw [hch]
      calc coreOf ((fetchChunk st seg?).foldl (processConvo oracle)
              ((fetchChunk st seg?).foldl (processConvo oracle) st))
          = coreOf ((fetchChunk st seg?).foldl (processConvo oracle) st) :=
            foldl_core_congr oracle _ hstep
        _ = coreOf st := hstep
        _ = coreOf ((fetchChunk st seg?).foldl (processConvo oracle) st) :=
            hstep.symm

/-- One of 200 open unassigned conversations in segment `s`. -/
def c5Conv (i : Nat) : Conversation :=
  ⟨"c" ++ toString i, "s", 1, i, .opn, none⟩

/-- A single eligible agent for segment `s`. -/
def c5Agent : Profile := ⟨"a1", "agent", true, true, "s", none⟩

/-- A run in which every assignment commit fails (e.g. persistent version
conflicts); fetches succeed and roster fetches succeed. -/
def allFailOracle : SchedOracle :=
  ⟨fun _ _ => false, fun _ => false, fun _ => false⟩

/-- The failing backlog: exactly `CHUNK_SIZE` (200) open unassigned
conversations in one segment. -/
def c5State : SchedState := initState ((List.range 200).map c5Conv) [c5Agent]

/-- The cache once segment `s` has been seen: the one-agent roster. -/
def cacheS : List (String × RosterEntry) := [("s", ⟨["a1"], 0⟩)]

/-- The eligible roster of segment `s` in the failing scenario. -/
lemma c5_roster : rosterIds [c5Agent] "s" = ["a1"] := by
  unfold rosterIds rosterOf
  have hf : List.filter (eligibleFor "s") [c5Agent] = [c5Agent] := rfl
  rw [hf, List.mergeSort_singleton]
  rfl

/-- With the one-agent roster cached and every commit failing, processing a
conversation of segment `s` leaves the state's core unchanged (the cursor
advances `(0 + 1) % 1 = 0`). -/
lemma allfail_step_frozen (st : SchedState) (c : Conversation)
    (hseg : c.segment = "s") (hcache : st.cache = cacheS) :
    coreOf (processConvo allFailOracle st c) = coreOf st ∧
    (processConvo allFailOracle st c).cache = cacheS := by
  unfold processConvo
  rw [hseg, hcache]
  have hl : lookupCache cacheS "s" = some ⟨["a1"], 0⟩ := rfl
  rw [hl]
  unfold withEntry
  rw [hseg]
  have hs : setCache cacheS "s" ⟨["a1"], (0 + 1) % (["a1"] : List String).length⟩ =
      cacheS := rfl
  have hs' : setCache cacheS "s" (⟨["a1"], 0⟩ : RosterEntry) = cacheS := rfl
  simp only [List.isEmpty_cons, if_false, Bool.false_eq_true, hs, hs']
  have hr : allFailOracle.rpcOk c.id ((["a1"] : List String).getD 0 "") = false := rfl
  rw [hr]
  simp [coreOf, hcache, hs']

/-- The first conversation of segment `s` only populates the cache; with the
commit failing, everything else in the core is unchanged. -/
lemma allfail_first_step (st : SchedState) (c : Conversation)
    (hseg : c.segment = "s") (hcache : st.cache = [])
    (hprof : st.profiles = [c5Agent]) :
    coreOf (processConvo allFailOracle st c) = (st.convs, st.profiles, cacheS) ∧
    (processConvo allFailOracle st c).cache = cacheS := by
  unfold processConvo
  rw [hseg, hcache, hprof]
  have hl : lookupCache ([] : List (String × RosterEntry)) "s" = none := rfl
  rw [hl]
  have hag : allFailOracle.agentsErr "s" = false := rfl
  rw [hag]
  simp only [Bool.false_eq_true, if_false]
  rw [c5_roster]
  unfold withEntry
  rw [hseg]
  have hs0 : setCache [] "s" (⟨["a1"], 0⟩ : RosterEntry) = cacheS := rfl
  have hs : setCache cacheS "s"
      ⟨["a1"], (0 + 1) % (["a1"] : List String).length⟩ = cacheS := rfl
  simp only [List.isEmpty_cons, if_false, Bool.false_eq_true, hs0, hs]
  have hr : allFailOracle.rpcOk c.id ((["a1"] : List String).getD 0 "") = false := rfl
  rw [hr]
  simp [coreOf, hprof, hcache]

/-- Folding any same-segment chunk over a frozen-core state keeps the core. -/
lemma allfail_fold_frozen :
    ∀ (L : List Conversation) (st : SchedState),
      (∀ c ∈ L, c.segment = "s") → st.cache = cacheS →
      coreOf (L.foldl (processConvo allFailOracle) st) = coreOf st := by
  intro L
  induction L with
  | nil => intro st _ _; rfl
  | cons c rest ih =>
    intro st hseg hcache
    simp only [List.foldl_cons]
    obtain ⟨hcore, hcache'⟩ :=
      allfail_step_frozen st c (hseg c (by simp)) hcache
    rw [ih (processConvo allFailOracle st c)
      (fun x hx => hseg x (by simp [hx])) hcache']
    exact hcore

set_option maxRecDepth 40000 in
/-- C5: The chunked scan does *not* terminate on every finite backlog
when assignment commits fail: with exactly 200 open unassigned
conversations in one segment and every `assign_conversation_and_update_related`
call failing, each fetch returns the same full chunk of 200 still-unassigned
rows and the loop never finishes, for any amount of fuel. (The claim's
"including runs in which some or all per-conversation assignment commits
fail" is exactly the situation this input falsifies.) -/
theorem C5_chunk_scan_diverges_on_failing_commits (fuel : Nat) :
    (runLoop allFailOracle none fuel 0 c5State).isFinished = false ∧
    ∃ st', runLoop allFailOracle none fuel 0 c5State = .fuelOut st' := by
  suffices h : ∃ st', runLoop allFailOracle none fuel 0 c5State = .fuelOut st' by
    obtain ⟨st', hrun⟩ := h
    exact ⟨by rw [hrun]; rfl, st', hrun⟩
  cases fuel with
  | zero => exact ⟨c5State, rfl⟩
  | succ n =>
    have hstep : runLoop allFailOracle none (n + 1) 0 c5State =
        runLoop allFailOracle none n 1
          ((fetchChunk c5State none).foldl (processConvo allFailOracle)
            c5State) := by
      rfl
    rw [hstep]
    have hseg : ∀ c ∈ fetchChunk c5State none, c.segment = "s" := by
      intro c hc
      have h1 := List.mem_of_mem_take hc
      have h2 := List.mem_of_mem_filter h1
      simp only [c5State, initState, List.mem_map, c5Conv] at h2
      obtain ⟨i, _, rfl⟩ := h2
      rfl
    have hcons : fetchChunk c5State none =
        c5Conv 0 :: (fetchChunk c5State none).tail := by
      rfl
    obtain ⟨hcore1, hcache1⟩ := allfail_first_step c5State (c5Conv 0) rfl rfl rfl
    have hfold1 : coreOf ((fetchChunk c5State none).foldl
          (processConvo allFailOracle) c5State) =
        (c5State.convs, c5State.profiles, cacheS) := by
      conv_lhs => rw [hcons]
      simp only [List.foldl_cons]
      rw [allfail_fold_frozen _ _
        (fun x hx => hseg x (by rw [hcons]; exact List.mem_cons_of_mem _ hx))
        hcache1]
      exact hcore1
    set st1 := (fetchChunk c5State none).foldl (processConvo allFailOracle)
      c5State with hst1
    have hconvs1 : st1.convs = c5State.convs := congrArg Prod.fst hfold1
    have hchunk_eq : fetchChunk st1 none = fetchChunk c5State none := by
      unfold fetchChunk
      rw [hconvs1]
    apply runLoop_never_finishes allFailOracle none (fun _ => rfl) n 1
    · rw [hchunk_eq]
      rfl
    · rw [hchunk_eq]
      have hcache1' : st1.cache = cacheS :=
        congrArg (Prod.snd ∘ Prod.snd) hfold1
      rw [allfail_fold_frozen _ _ hseg hcache1']


/-- Setting then getting the same key of the cache. -/
lemma lookupCache_setCache_self (cch : List (String × RosterEntry))
    (s : String) (e : RosterEntry) :
    lookupCache (setCache cch s e) s = some e := by
  unfold lookupCache setCache
  rw [List.find?_cons_of_pos _ (by simp)]
  rfl

/-- Search via `find?` skips filtered-out elements that could not match anyway. -/
lemma find?_filter_of_imp {p q : (String × RosterEntry) → Bool}
    (l : List (String × RosterEntry)) (h : ∀ x, p x = true → q x = true) :
    List.find? p (l.filter q) = List.find? p l := by
  induction l with
  | nil => rfl
  | cons x xs ih =>
    by_cases hq : q x
    · rw [List.filter_cons_of_pos hq]
      by_cases hp : p x
      · rw [List.find?_cons_of_pos _ hp, List.find?_cons_of_pos _ hp]
      · rw [List.find?_cons_of_neg _ hp, List.find?_cons_of_neg _ hp, ih]
    · rw [List.filter_cons_of_neg hq]
      have hp : ¬p x = true := fun hpx => hq (h x hpx)
      rw [List.find?_cons_of_neg _ hp, ih]

/-- Setting one key leaves lookups of other keys unchanged. -/
lemma lookupCache_setCache_other (cch : List (String × RosterEntry))
    (s s' : String) (e : RosterEntry) (h : s' ≠ s) :
    lookupCache (setCache cch s e) s' = lookupCache cch s' := by
  unfold lookupCache setCache
  rw [List.find?_cons_of_neg _ (by simp [h.symm])]
  rw [find?_filter_of_imp]
  intro x hx
  simp only [beq_iff_eq] at hx
  simp [hx, h]

/-- C9: For a conversation whose segment has a cached non-empty roster,
the round-robin cursor advances exactly once, to `(idx + 1) % length`, and
the assignment RPC for the agent at the old cursor is recorded — all of
this *regardless of the commit outcome*: a failed commit changes no counter
but still consumes the selected agent's turn, and the next conversation of
the same segment is offered the next agent in the rotation. -/
theorem C9_cursor_advances_before_commit (oracle : SchedOracle) (st : SchedState) (c : Conversation)
    (e : RosterEntry)
    (hl : lookupCache st.cache c.segment = some e)
    (hne : e.list ≠ []) :
    lookupCache (processConvo oracle st c).cache c.segment =
      some ⟨e.list, (e.idx + 1) % e.list.length⟩ ∧
    (processConvo oracle st c).rpcTrace =
      st.rpcTrace ++ [(c.id, e.list.getD e.idx "")] ∧
    (oracle.rpcOk c.id (e.list.getD e.idx "") = false →
      (processConvo oracle st c).assignedCount = st.assignedCount ∧
      (processConvo oracle st c).failed =
        st.failed ++ [⟨c.id, some (e.list.getD e.idx ""), "rpc error"⟩]) ∧
    (∀ c₂ : Conversation, c₂.segment = c.segment →
      (processConvo oracle (processConvo oracle st c) c₂).rpcTrace =
        (processConvo oracle st c).rpcTrace ++
          [(c₂.id, e.list.getD ((e.idx + 1) % e.list.length) "")]) := by
  have hemp : e.list.isEmpty = false := List.isEmpty_eq_false.mpr hne
  unfold processConvo
  rw [hl]
  dsimp only
  unfold withEntry
  rw [hemp]
  simp only [Bool.false_eq_true, if_false]
  by_cases hok : oracle.rpcOk c.id (e.list.getD e.idx "")
  · rw [if_pos hok]
    refine ⟨by simp [lookupCache_setCache_self], rfl,
      fun hf => absurd (hok.symm.trans hf) (by decide), ?_⟩
    intro c₂ hseg2
    dsimp only
    rw [hseg2, lookupCache_setCache_self]
    dsimp only
    rw [hemp]
    simp only [Bool.false_eq_true, if_false]
    by_cases hok2 : oracle.rpcOk c₂.id (e.list.getD ((e.idx + 1) % e.list.length) "")
    · rw [if_pos hok2]
    · rw [if_neg hok2]
  · rw [if_neg hok]
    refine ⟨by simp [lookupCache_setCache_self], rfl, fun _ => ⟨rfl, rfl⟩, ?_⟩
    intro c₂ hseg2
    dsimp only
    rw [hseg2, lookupCache_setCache_self]
    dsimp only
    rw [hemp]
    simp only [Bool.false_eq_true, if_false]
    by_cases hok2 : oracle.rpcOk c₂.id (e.list.getD ((e.idx + 1) % e.list.length) "")
    · rw [if_pos hok2]
    · rw [if_neg hok2]

/-- A run state whose segment `s` roster of two agents is cached, cursor at
0. -/
def stC9 : SchedState :=
  ⟨[], [], [("s", ⟨["a1", "a2"], 0⟩)], 0, [], []⟩

/-- A conversation of segment `s`. -/
def convC9 : Conversation := ⟨"cx", "s", 1, 0, .opn, none⟩

/-- Witness for C9 with a failing commit: the cursor still advances and the
RPC call is recorded. -/
theorem C9_cursor_advances_before_commit_witness :
    lookupCache (processConvo allFailOracle stC9 convC9).cache
        convC9.segment =
      some ⟨["a1", "a2"], (0 + 1) % (["a1", "a2"] : List String).length⟩ ∧
    (processConvo allFailOracle stC9 convC9).rpcTrace =
      stC9.rpcTrace ++ [(convC9.id, (["a1", "a2"] : List String).getD 0 "")] ∧
    (allFailOracle.rpcOk convC9.id ((["a1", "a2"] : List String).getD 0 "") =
        false →
      (processConvo allFailOracle stC9 convC9).assignedCount =
          stC9.assignedCount ∧
      (processConvo allFailOracle stC9 convC9).failed =
        stC9.failed ++ [⟨convC9.id,
          some ((["a1", "a2"] : List String).getD 0 ""), "rpc error"⟩]) ∧
    (∀ c₂ : Conversation, c₂.segment = convC9.segment →
      (processConvo allFailOracle
          (processConvo allFailOracle stC9 convC9) c₂).rpcTrace =
        (processConvo allFailOracle stC9 convC9).rpcTrace ++
          [(c₂.id, (["a1", "a2"] : List String).getD
            ((0 + 1) % (["a1", "a2"] : List String).length) "")]) :=
  C9_cursor_advances_before_commit allFailOracle stC9 convC9
    ⟨["a1", "a2"], 0⟩ rfl (by decide)


/-- The agent id belongs to a profile that is active, present today and has
role `agent` or `team_leader`. -/
def agentOK (P : List Profile) (aid : String) : Prop :=
  ∃ p, p ∈ P ∧ p.id = aid ∧ (p.role = "agent" ∨ p.role = "team_leader") ∧
    p.isActive = true ∧ p.presentToday = true

/-- Every cached roster holds only `agentOK` ids, with an in-range cursor
whenever the roster is non-empty. -/
def cacheOKp (P : List Profile) (cch : List (String × RosterEntry)) : Prop :=
  ∀ s e, lookupCache cch s = some e →
    (∀ a ∈ e.list, agentOK P a) ∧ (e.idx < e.list.length ∨ e.list = [])

/-- Roster members satisfy the roster query's filter. -/
lemma roster_eligible (P : List Profile) (s : String) (p : Profile)
    (hp : p ∈ rosterOf P s) : eligibleFor s p = true := by
  unfold rosterOf at hp
  exact List.of_mem_filter
    ((List.mergeSort_perm (P.filter (eligibleFor s)) _).mem_iff.mp hp)

/-- Roster members come from the profiles table. -/
lemma roster_mem (P : List Profile) (s : String) (p : Profile)
    (hp : p ∈ rosterOf P s) : p ∈ P := by
  unfold rosterOf at hp
  exact List.mem_of_mem_filter
    ((List.mergeSort_perm (P.filter (eligibleFor s)) _).mem_iff.mp hp)

/-- Every roster id is an eligible agent's id. -/
lemma roster_agentOK (P : List Profile) (s : String) :
    ∀ a ∈ rosterIds P s, agentOK P a := by
  intro a ha
  unfold rosterIds at ha
  obtain ⟨p, hp, rfl⟩ := List.mem_map.mp ha
  have he := roster_eligible P s p hp
  unfold eligibleFor at he
  simp only [Bool.and_eq_true, Bool.or_eq_true, beq_iff_eq] at he
  exact ⟨p, roster_mem P s p hp, rfl, he.1.1.1, he.1.1.2, he.1.2⟩

/-- The loop body never writes the profiles table. -/
lemma processConvo_profiles (oracle : SchedOracle) (st : SchedState)
    (c : Conversation) : (processConvo oracle st c).profiles = st.profiles := by
  unfold processConvo withEntry
  split
  · split
    · rfl
    · dsimp only
      split
      · rfl
      · try dsimp only
        split <;> rfl
  · split
    · rfl
    · try dsimp only
      split <;> rfl

/-- Setting a well-formed entry preserves cache well-formedness. -/
lemma cacheOKp_set (P : List Profile) (cch : List (String × RosterEntry))
    (s : String) (e : RosterEntry) (hc : cacheOKp P cch)
    (he : (∀ a ∈ e.list, agentOK P a) ∧
      (e.idx < e.list.length ∨ e.list = [])) :
    cacheOKp P (setCache cch s e) := by
  intro s' e' hl
  by_cases hs : s' = s
  · subst hs
    rw [lookupCache_setCache_self] at hl
    cases hl
    exact he
  · rw [lookupCache_setCache_other _ _ _ _ hs] at hl
    exact hc s' e' hl

/-- The selection-and-commit step preserves the invariants and only records
RPC calls to agents of the given (well-formed) entry. -/
lemma withEntry_inv (P : List Profile) (oracle : SchedOracle)
    (st : SchedState) (c : Conversation) (e : RosterEntry)
    (hP : st.profiles = P)
    (hc : cacheOKp P st.cache)
    (ht : ∀ pr ∈ st.rpcTrace, agentOK P pr.2)
    (he : (∀ a ∈ e.list, agentOK P a) ∧
      (e.idx < e.list.length ∨ e.list = [])) :
    (withEntry oracle st c e).profiles = P ∧
    cacheOKp P (withEntry oracle st c e).cache ∧
    (∀ pr ∈ (withEntry oracle st c e).rpcTrace, agentOK P pr.2) := by
  unfold withEntry
  by_cases hemp : e.list.isEmpty
  · rw [if_pos hemp]
    exact ⟨hP, hc, ht⟩
  · rw [if_neg hemp]
    have hlen : e.idx < e.list.length := by
      rcases he.2 with h | h
      · exact h
      · exact absurd (List.isEmpty_iff.mpr h) hemp
    have hag : agentOK P (e.list.getD e.idx "") := by
      rw [List.getD_eq_getElem e.list "" hlen]
      exact he.1 _ (List.getElem_mem hlen)
    have hcache' : cacheOKp P
        (setCache st.cache c.segment ⟨e.list, (e.idx + 1) % e.list.length⟩) := by
      apply cacheOKp_set P st.cache c.segment _ hc
      refine ⟨he.1, Or.inl ?_⟩
      apply Nat.mod_lt
      cases hl : e.list with
      | nil => exact absurd (List.isEmpty_iff.mpr hl) hemp
      | cons a as => simp
    have htr : ∀ pr ∈ st.rpcTrace ++ [(c.id, e.list.getD e.idx "")],
        agentOK P pr.2 := by
      intro pr hpr
      rcases List.mem_append.mp hpr with h | h
      · exact ht pr h
      · rw [List.mem_singleton] at h
        subst h
        exact hag
    by_cases hok : oracle.rpcOk c.id (e.list.getD e.idx "")
    · rw [if_pos hok]
      exact ⟨hP, hcache', htr⟩
    · rw [if_neg hok]
      exact ⟨hP, hcache', htr⟩

/-- The loop body preserves the invariants: every recorded RPC call is to an
eligible agent. -/
lemma processConvo_inv (P : List Profile) (oracle : SchedOracle)
    (st : SchedState) (c : Conversation)
    (hP : st.profiles = P)
    (hc : cacheOKp P st.cache)
    (ht : ∀ pr ∈ st.rpcTrace, agentOK P pr.2) :
    (processConvo oracle st c).profiles = P ∧
    cacheOKp P (processConvo oracle st c).cache ∧
    (∀ pr ∈ (processConvo oracle st c).rpcTrace, agentOK P pr.2) := by
  unfold processConvo
  cases hl : lookupCache st.cache c.segment with
  | none =>
    dsimp only
    by_cases herr : oracle.agentsErr c.segment
    · rw [if_pos herr]
      exact ⟨hP, hc, ht⟩
    · rw [if_neg herr]
      refine withEntry_inv P oracle _ c _ ?_ ?_ ?_ ?_
      · exact hP
      · refine cacheOKp_set P st.cache c.segment _ hc ?_
        rw [hP]
        exact ⟨roster_agentOK P c.segment,
          by cases rosterIds P c.segment <;> simp⟩
      · exact ht
      · rw [hP]
        exact ⟨roster_agentOK P c.segment,
          by cases rosterIds P c.segment <;> simp⟩
  | some e =>
    dsimp only
    exact withEntry_inv P oracle st c e hP hc ht (hc c.segment e hl)

/-- Chunk processing preserves the invariants. -/
lemma foldl_inv (P : List Profile) (oracle : SchedOracle) :
    ∀ (L : List Conversation) (st : SchedState),
      st.profiles = P → cacheOKp P st.cache →
      (∀ pr ∈ st.rpcTrace, agentOK P pr.2) →
      (L.foldl (processConvo oracle) st).profiles = P ∧
      cacheOKp P (L.foldl (processConvo oracle) st).cache ∧
      (∀ pr ∈ (L.foldl (processConvo oracle) st).rpcTrace, agentOK P pr.2) := by
  intro L
  induction L with
  | nil => intro st h1 h2 h3; exact ⟨h1, h2, h3⟩
  | cons c rest ih =>
    intro st h1 h2 h3
    simp only [List.foldl_cons]
    obtain ⟨g1, g2, g3⟩ := processConvo_inv P oracle st c h1 h2 h3
    exact ih (processConvo oracle st c) g1 g2 g3

/-- The whole chunk loop preserves the invariants. -/
lemma runLoop_inv (P : List Profile) (oracle : SchedOracle)
    (seg? : Option String) :
    ∀ (fuel k : Nat) (st : SchedState),
      st.profiles = P → cacheOKp P st.cache →
      (∀ pr ∈ st.rpcTrace, agentOK P pr.2) →
      ∀ pr ∈ ((runLoop oracle seg? fuel k st).state).rpcTrace, agentOK P pr.2 := by
  intro fuel
  induction fuel with
  | zero => intro k st _ _ h3; exact h3
  | succ n ih =>
    intro k st h1 h2 h3
    unfold runLoop
    by_cases hcf : oracle.convFetchErr k
    · rw [if_pos hcf]; exact h3
    · rw [if_neg hcf]
      dsimp only
      by_cases hz : (fetchChunk st seg?).length = 0
      · rw [if_pos hz]; exact h3
      · rw [if_neg hz]
        obtain ⟨g1, g2, g3⟩ := foldl_inv P oracle (fetchChunk st seg?) st h1 h2 h3
        by_cases hfull : (fetchChunk st seg?).length = CHUNK_SIZE
        · rw [if_pos hfull]
          exact ih (k + 1) _ g1 g2 g3
        · rw [if_neg hfull]
          exact g3

/-- C10: The eligible-agent roster of a segment contains only profiles
with role `agent` or `team_leader` that are active, present today and in
that segment; and in any scheduler run started with an empty cache and
trace, every assignment RPC targets such a profile — a profile with any
other role is never assigned a conversation. -/
theorem C10_roster_role_restriction :
    (∀ (profiles : List Profile) (s : String) (p : Profile),
        p ∈ rosterOf profiles s → eligibleFor s p = true) ∧
    (∀ (oracle : SchedOracle) (seg? : Option String) (fuel k : Nat)
        (st : SchedState), st.cache = [] → st.rpcTrace = [] →
      ∀ pr ∈ ((runLoop oracle seg? fuel k st).state).rpcTrace,
        agentOK st.profiles pr.2) := by
  constructor
  · exact roster_eligible
  · intro oracle seg? fuel k st hcache htrace
    apply runLoop_inv st.profiles oracle seg? fuel k st rfl
    · intro s e hl
      rw [hcache] at hl
      exact absurd hl (by simp [lookupCache])
    · intro pr hpr
      rw [htrace] at hpr
      exact absurd hpr (List.not_mem_nil pr)

/-- The one-agent roster evaluates as expected. -/
lemma rosterOf_single : rosterOf [c5Agent] "s" = [c5Agent] := by
  unfold rosterOf
  have hf : List.filter (eligibleFor "s") [c5Agent] = [c5Agent] := rfl
  rw [hf, List.mergeSort_singleton]

/-- Witness for C10 at a concrete roster. -/
theorem C10_roster_role_restriction_witness :
    eligibleFor "s" c5Agent = true :=
  C10_roster_role_restriction.1 [c5Agent] "s" c5Agent
    (by rw [rosterOf_single]; exact List.mem_singleton_self c5Agent)


/-- The round-robin selection sequence: scanning conversations `L` with the
roster `R` and starting cursor `idx` calls the assignment RPC for
`(c.id, R[(idx + position) % |R|])` in order. -/
def selSeq (R : List String) : Nat → List Conversation → List (String × String)
  | _, [] => []
  | idx, c :: L => (c.id, R.getD (idx % R.length) "") :: selSeq R (idx + 1) L

/-- The selection sequence depends on the cursor only modulo the roster
length. -/
lemma selSeq_congr (R : List String) :
    ∀ (L : List Conversation) (idx₁ idx₂ : Nat),
      idx₁ % R.length = idx₂ % R.length →
      selSeq R idx₁ L = selSeq R idx₂ L := by
  intro L
  induction L with
  | nil => intro idx₁ idx₂ _; rfl
  | cons c rest ih =>
    intro idx₁ idx₂ h
    unfold selSeq
    rw [h, ih (idx₁ + 1) (idx₂ + 1)
      (by rw [← Nat.mod_add_mod, h, Nat.mod_add_mod])]

/-- Selection over concatenated scans composes, shifting the cursor. -/
lemma selSeq_append (R : List String) :
    ∀ (A B : List Conversation) (idx : Nat),
      selSeq R idx (A ++ B) = selSeq R idx A ++ selSeq R (idx + A.length) B := by
  intro A
  induction A with
  | nil => intro B idx; simp [selSeq]
  | cons c rest ih =>
    intro B idx
    simp only [List.cons_append, selSeq, List.length_cons, List.append_eq]
    rw [ih B (idx + 1)]
    have h : idx + 1 + rest.length = idx + (rest.length + 1) := by omega
    rw [h]

/-- Updating the only entry of a one-segment cache. -/
lemma setCache_single (s : String) (e e' : RosterEntry) :
    setCache [(s, e)] s e' = [(s, e')] := by
  unfold setCache
  simp

/-- Assigning one conversation removes exactly the rows with its id from
the unassigned-open scan. -/
lemma filter_assign (convs : List Conversation) (cid a : String) :
    ((convs.map (fun v =>
        if v.id = cid then
          { v with assignedAgentId := some a, version := v.version + 1 }
        else v)).filter (fetchPred none)) =
      (convs.filter (fetchPred none)).filter (fun v => !(v.id == cid)) := by
  rw [List.filter_map]
  have h1 : List.filter ((fetchPred none) ∘ (fun v =>
      if v.id = cid then
        { v with assignedAgentId := some a, version := v.version + 1 }
      else v)) convs =
      List.filter (fun v => !(v.id == cid) && fetchPred none v) convs := by
    apply List.filter_congr
    intro v _
    by_cases h : v.id = cid
    · simp [Function.comp, h, fetchPred]
    · simp [Function.comp, h]
  rw [h1]
  have h2 : List.map (fun v =>
      if v.id = cid then
        { v with assignedAgentId := some a, version := v.version + 1 }
      else v) (List.filter (fun v => !(v.id == cid) && fetchPred none v) convs) =
      List.filter (fun v => !(v.id == cid) && fetchPred none v) convs := by
    conv_rhs => rw [← List.map_id
      (List.filter (fun v => !(v.id == cid) && fetchPred none v) convs)]
    apply List.map_congr_left
    intro v hv
    have hvp := List.of_mem_filter hv
    simp only [Bool.and_eq_true, Bool.not_eq_true', beq_eq_false_iff_ne,
      ne_eq] at hvp
    simp [hvp.1]
  rw [h2, List.filter_filter]

/-- With distinct ids, removing a prefix's ids from a backlog leaves
exactly the suffix. -/
lemma filter_not_mem_prefix (t d : List Conversation)
    (hnd : ((t ++ d).map (fun v => v.id)).Nodup) :
    (t ++ d).filter (fun v => !((t.map (fun v => v.id)).contains v.id)) = d := by
  rw [List.map_append] at hnd
  have hdisj := List.disjoint_of_nodup_append hnd
  rw [List.filter_append]
  have h1 : t.filter (fun v => !((t.map (fun v => v.id)).contains v.id)) = [] := by
    rw [List.filter_eq_nil_iff]
    intro a ha
    have hm : (t.map (fun v => v.id)).contains a.id = true :=
      List.elem_iff.mpr (List.mem_map_of_mem _ ha)
    simp only [hm, Bool.not_true, Bool.false_eq_true, not_false_eq_true]
  have h2 : d.filter (fun v => !((t.map (fun v => v.id)).contains v.id)) = d := by
    rw [List.filter_eq_self]
    intro a ha
    have hm : a.id ∉ t.map (fun v => v.id) :=
      fun hmem => hdisj hmem (List.mem_map_of_mem _ ha)
    have hm2 : (t.map (fun v => v.id)).contains a.id = false := by
      rw [← Bool.not_eq_true]
      exact fun hc => hm (List.elem_iff.mp hc)
    simp only [hm2, Bool.not_false]
  rw [h1, h2, List.nil_append]

/-- Processing one single-segment chunk when every commit succeeds: the
cursor advances by the chunk length, the RPC trace extends by the selection
sequence, and the scanned conversations leave the unassigned backlog. -/
lemma foldChunk_success (oracle : SchedOracle)
    (hok : ∀ cid aid, oracle.rpcOk cid aid = true) (s₀ : String) :
    ∀ (L : List Conversation) (st : SchedState) (R : List String) (idx : Nat),
      R ≠ [] → idx < R.length →
      st.cache = [(s₀, ⟨R, idx⟩)] →
      (∀ c ∈ L, c.segment = s₀) →
      (L.foldl (processConvo oracle) st).profiles = st.profiles ∧
      (L.foldl (processConvo oracle) st).cache =
        [(s₀, ⟨R, (idx + L.length) % R.length⟩)] ∧
      (L.foldl (processConvo oracle) st).rpcTrace =
        st.rpcTrace ++ selSeq R idx L ∧
      (L.foldl (processConvo oracle) st).convs.filter (fetchPred none) =
        (st.convs.filter (fetchPred none)).filter
          (fun v => !((L.map (fun c => c.id)).contains v.id)) := by
  intro L
  induction L with
  | nil =>
    intro st R idx hR hidx hcache _
    simp only [List.foldl_nil, List.length_nil, Nat.add_zero, List.map_nil]
    refine ⟨trivial, ?_, by simp [selSeq], ?_⟩
    · rw [hcache, Nat.mod_eq_of_lt hidx]
    · rw [eq_comm, List.filter_eq_self]
      intro a _
      simp
  | cons c rest ih =>
    intro st R idx hR hidx hcache hseg
    have hlen0 : 0 < R.length := by
      cases R with
      | nil => exact absurd rfl hR
      | cons x xs => simp
    simp only [List.foldl_cons]
    have hstep : processConvo oracle st c =
        { st with
          convs := st.convs.map (fun v =>
            if v.id = c.id then
              { v with assignedAgentId := some (R.getD idx ""),
                       version := v.version + 1 }
            else v),
          cache := [(s₀, ⟨R, (idx + 1) % R.length⟩)],
          assignedCount := st.assignedCount + 1,
          rpcTrace := st.rpcTrace ++ [(c.id, R.getD idx "")] } := by
      unfold processConvo
      rw [hseg c (by simp), hcache]
      have hl : lookupCache [(s₀, (⟨R, idx⟩ : RosterEntry))] s₀ =
          some ⟨R, idx⟩ := by
        unfold lookupCache
        rw [List.find?_cons_of_pos _ (by simp)]
        rfl
      rw [hl]
      dsimp only
      unfold withEntry
      dsimp only
      rw [hseg c (by simp), hcache]
      rw [List.isEmpty_eq_false.mpr hR]
      simp only [Bool.false_eq_true, if_false]
      rw [setCache_single]
      rw [if_pos (hok c.id _)]
    rw [hstep]
    obtain ⟨g1, g2, g3, g4⟩ := ih
      { st with
        convs := st.convs.map (fun v =>
          if v.id = c.id then
            { v with assignedAgentId := some (R.getD idx ""),
                     version := v.version + 1 }
          else v),
        cache := [(s₀, ⟨R, (idx + 1) % R.length⟩)],
        assignedCount := st.assignedCount + 1,
        rpcTrace := st.rpcTrace ++ [(c.id, R.getD idx "")] }
      R ((idx + 1) % R.length) hR (Nat.mod_lt _ hlen0) rfl
      (fun x hx => hseg x (by simp [hx]))
    refine ⟨g1, ?_, ?_, ?_⟩
    · rw [g2]
      have h : ((idx + 1) % R.length + rest.length) % R.length =
          (idx + (rest.length + 1)) % R.length := by
        rw [Nat.mod_add_mod]
        congr 1
        omega
      simp only [List.length_cons, h]
    · rw [g3]
      simp only [selSeq]
      rw [Nat.mod_eq_of_lt hidx]
      rw [selSeq_congr R rest ((idx + 1) % R.length) (idx + 1)
        (Nat.mod_mod_of_dvd (idx + 1) dvd_rfl)]
      simp [List.append_assoc]
    · rw [g4]
      dsimp only
      rw [filter_assign st.convs c.id (R.getD idx "")]
      rw [List.filter_filter]
      apply List.filter_congr
      intro v _
      simp only [List.map_cons, List.contains_cons, Bool.not_or]
      rw [Bool.and_comm]

/-- Setting into an empty cache. -/
lemma setCache_nil (s : String) (e : RosterEntry) :
    setCache [] s e = [(s, e)] := rfl

/-- The first conversation of a run populates the segment's cache; folding
from the empty cache equals folding from the populated one. -/
lemma foldl_populate (oracle : SchedOracle) (s₀ : String)
    (hag : ∀ s, oracle.agentsErr s = false) :
    ∀ (L : List Conversation) (st : SchedState),
      st.cache = [] → L ≠ [] → (∀ c ∈ L, c.segment = s₀) →
      L.foldl (processConvo oracle) st =
        L.foldl (processConvo oracle)
          { st with cache := [(s₀, ⟨rosterIds st.profiles s₀, 0⟩)] } := by
  intro L st hcache hL hseg
  cases L with
  | nil => exact absurd rfl hL
  | cons c L' =>
    simp only [List.foldl_cons]
    have hpc : processConvo oracle st c =
        processConvo oracle
          { st with cache := [(s₀, ⟨rosterIds st.profiles s₀, 0⟩)] } c := by
      unfold processConvo
      rw [hseg c (by simp), hcache]
      dsimp only
      have h1 : lookupCache ([] : List (String × RosterEntry)) s₀ = none := rfl
      have h2 : lookupCache
          [(s₀, (⟨rosterIds st.profiles s₀, 0⟩ : RosterEntry))] s₀ =
          some ⟨rosterIds st.profiles s₀, 0⟩ := by
        unfold lookupCache
        rw [List.find?_cons_of_pos _ (by simp)]
        rfl
      rw [h1, h2, hag s₀]
      simp only [Bool.false_eq_true, if_false]
      rfl
    rw [hpc]

/-- Continuation of the chunk loop after one successfully committed chunk. -/
lemma runAll_chunk_rest (oracle : SchedOracle) (s₀ : String) (R : List String)
    (hR : R ≠ []) (n k : Nat) (st st₁ : SchedState) (idx : Nat)
    (hidx : idx < R.length)
    (hseg : ∀ c ∈ st.convs.filter (fetchPred none), c.segment = s₀)
    (hnd : ((st.convs.filter (fetchPred none)).map (fun c => c.id)).Nodup)
    (hlen : (st.convs.filter (fetchPred none)).length < n + 1)
    (ih : ∀ (k : Nat) (st : SchedState) (idx : Nat),
      idx < R.length →
      (st.cache = [(s₀, ⟨R, idx⟩)] ∨
        (st.cache = [] ∧ idx = 0 ∧ rosterIds st.profiles s₀ = R)) →
      (∀ c ∈ st.convs.filter (fetchPred none), c.segment = s₀) →
      ((st.convs.filter (fetchPred none)).map (fun c => c.id)).Nodup →
      (st.convs.filter (fetchPred none)).length < n →
      ∃ stF, runLoop oracle none n k st = .finished stF ∧
        stF.rpcTrace = st.rpcTrace ++
          selSeq R idx (st.convs.filter (fetchPred none)))
    (g2 : st₁.cache =
      [(s₀, ⟨R, (idx + (fetchChunk st none).length) % R.length⟩)])
    (g3 : st₁.rpcTrace = st.rpcTrace ++ selSeq R idx (fetchChunk st none))
    (g4 : st₁.convs.filter (fetchPred none) =
      (st.convs.filter (fetchPred none)).filter
        (fun v => !(((fetchChunk st none).map (fun c => c.id)).contains v.id))) :
    ∃ stF,
      (if (fetchChunk st none).length = CHUNK_SIZE then
        runLoop oracle none n (k + 1) st₁
      else LoopOut.finished st₁) = .finished stF ∧
      stF.rpcTrace = st.rpcTrace ++
        selSeq R idx (st.convs.filter (fetchPred none)) := by
  have hlen0 : 0 < R.length := by
    cases R with
    | nil => exact absurd rfl hR
    | cons x xs => simp
  have hchunk : fetchChunk st none =
      (st.convs.filter (fetchPred none)).take CHUNK_SIZE := rfl
  have hchlen : (fetchChunk st none).length =
      min CHUNK_SIZE (st.convs.filter (fetchPred none)).length := by
    rw [hchunk]
    exact List.length_take CHUNK_SIZE _
  have hCsplit : (st.convs.filter (fetchPred none)).take CHUNK_SIZE ++
      (st.convs.filter (fetchPred none)).drop CHUNK_SIZE =
      st.convs.filter (fetchPred none) :=
    List.take_append_drop CHUNK_SIZE _
  by_cases hfull : (fetchChunk st none).length = CHUNK_SIZE
  · rw [if_pos hfull]
    have h200 : CHUNK_SIZE ≤ (st.convs.filter (fetchPred none)).length := by
      rw [hfull] at hchlen
      omega
    have hC1 : st₁.convs.filter (fetchPred none) =
        (st.convs.filter (fetchPred none)).drop CHUNK_SIZE := by
      rw [g4, hchunk]
      have hstep := filter_not_mem_prefix
        ((st.convs.filter (fetchPred none)).take CHUNK_SIZE)
        ((st.convs.filter (fetchPred none)).drop CHUNK_SIZE)
        (by rw [hCsplit]; exact hnd)
      rw [hCsplit] at hstep
      exact hstep
    obtain ⟨stF, hrunF, htrF⟩ := ih (k + 1) st₁
      ((idx + CHUNK_SIZE) % R.length)
      (Nat.mod_lt _ hlen0)
      (Or.inl (by rw [g2, hfull]))
      (by
        intro c hc
        rw [hC1] at hc
        exact hseg c (List.mem_of_mem_drop hc))
      (by
        rw [hC1]
        exact ((List.drop_sublist _ _).map _).nodup hnd)
      (by
        rw [hC1, List.length_drop]
        simp only [CHUNK_SIZE] at h200 ⊢
        omega)
    refine ⟨stF, hrunF, ?_⟩
    rw [htrF, hC1, g3]
    conv_rhs => rw [← hCsplit]
    rw [selSeq_append]
    have htk : ((st.convs.filter (fetchPred none)).take CHUNK_SIZE).length =
        CHUNK_SIZE := by
      rw [List.length_take]
      omega
    rw [htk, hchunk]
    rw [selSeq_congr R _ ((idx + CHUNK_SIZE) % R.length) (idx + CHUNK_SIZE)
      (Nat.mod_mod_of_dvd _ dvd_rfl)]
    rw [List.append_assoc]
  · rw [if_neg hfull]
    have hlt : (st.convs.filter (fetchPred none)).length ≤ CHUNK_SIZE := by
      rw [hchlen] at hfull
      simp only [CHUNK_SIZE] at hfull ⊢
      omega
    have hCeq : fetchChunk st none = st.convs.filter (fetchPred none) := by
      rw [hchunk]
      exact List.take_of_length_le hlt
    exact ⟨st₁, rfl, by rw [g3, hCeq]⟩

/-- The full chunked scan over a single-segment backlog with all commits
succeeding: the loop finishes and its RPC trace is exactly the round-robin
selection sequence over the whole backlog. -/
lemma runAll_success (oracle : SchedOracle) (s₀ : String) (R : List String)
    (hok : ∀ cid aid, oracle.rpcOk cid aid = true)
    (hag : ∀ s, oracle.agentsErr s = false)
    (hcf : ∀ k, oracle.convFetchErr k = false)
    (hR : R ≠ []) :
    ∀ (fuel k : Nat) (st : SchedState) (idx : Nat),
      idx < R.length →
      (st.cache = [(s₀, ⟨R, idx⟩)] ∨
        (st.cache = [] ∧ idx = 0 ∧ rosterIds st.profiles s₀ = R)) →
      (∀ c ∈ st.convs.filter (fetchPred none), c.segment = s₀) →
      ((st.convs.filter (fetchPred none)).map (fun c => c.id)).Nodup →
      (st.convs.filter (fetchPred none)).length < fuel →
      ∃ stF, runLoop oracle none fuel k st = .finished stF ∧
        stF.rpcTrace = st.rpcTrace ++
          selSeq R idx (st.convs.filter (fetchPred none)) := by
  intro fuel
  induction fuel with
  | zero =>
    intro k st idx _ _ _ _ hlen
    exact absurd hlen (by omega)
  | succ n ih =>
    intro k st idx hidx hcase hseg hnd hlen
    unfold runLoop
    rw [hcf k]
    simp only [Bool.false_eq_true, if_false]
    by_cases hCnil : st.convs.filter (fetchPred none) = []
    · have hchunk : fetchChunk st none = [] := by
        unfold fetchChunk
        rw [hCnil]
        rfl
      rw [hchunk]
      simp only [List.length_nil, if_pos rfl]
      exact ⟨st, rfl, by simp [hCnil, selSeq]⟩
    · have hchne : (fetchChunk st none).length ≠ 0 := by
        unfold fetchChunk
        rw [List.length_take]
        have h1 : (st.convs.filter (fetchPred none)).length ≠ 0 :=
          fun h => hCnil (List.length_eq_zero.mp h)
        simp only [CHUNK_SIZE]
        omega
      rw [if_neg hchne]
      have hsegch : ∀ c ∈ fetchChunk st none, c.segment = s₀ :=
        fun c hc => hseg c (List.mem_of_mem_take hc)
      rcases hcase with hc1 | ⟨hc0, hidx0, hros⟩
      · obtain ⟨g1, g2, g3, g4⟩ := foldChunk_success oracle hok s₀
          (fetchChunk st none) st R idx hR hidx hc1 hsegch
        exact runAll_chunk_rest oracle s₀ R hR n k st _ idx hidx
          hseg hnd hlen ih g2 g3 g4
      · subst hidx0
        have hchne' : fetchChunk st none ≠ [] :=
          fun h => hchne (by rw [h]; rfl)
        rw [foldl_populate oracle s₀ hag (fetchChunk st none) st hc0
          hchne' hsegch]
        obtain ⟨g1, g2, g3, g4⟩ := foldChunk_success oracle hok s₀
          (fetchChunk st none)
          { st with cache := [(s₀, ⟨rosterIds st.profiles s₀, 0⟩)] }
          R 0 hR hidx (by rw [hros]) hsegch
        exact runAll_chunk_rest oracle s₀ R hR n k st _ 0 hidx
          hseg hnd hlen ih g2 g3 g4

/-- How many selections in an RPC trace went to agent `a`. -/
def cntSel (tr : List (String × String)) (a : String) : Nat :=
  (tr.filter (fun pr => pr.2 == a)).length

/-- The agents of the selection sequence, position by position. -/
lemma selSeq_agents (R : List String) :
    ∀ (L : List Conversation) (idx : Nat),
      (selSeq R idx L).map Prod.snd =
        (List.range L.length).map
          (fun j => R.getD ((idx + j) % R.length) "") := by
  intro L
  induction L with
  | nil => intro idx; rfl
  | cons c rest ih =>
    intro idx
    simp only [selSeq, List.map_cons, List.length_cons,
      List.range_succ_eq_map, List.map_map]
    refine congrArg₂ _ (by rw [Nat.add_zero]) ?_
    rw [ih (idx + 1)]
    apply List.map_congr_left
    intro j _
    simp only [Function.comp_apply, Nat.succ_eq_add_one]
    congr 2
    omega

/-- With distinct agents, the selection count of the agent at roster
position `i` counts the scan positions congruent to `i` mod the roster
length. -/
lemma cntSel_count (R : List String) (hnd : R.Nodup) (i : Nat)
    (hi : i < R.length) (L : List Conversation) :
    cntSel (selSeq R 0 L) (R.getD i "") =
      Nat.count (fun j => j % R.length = i) L.length := by
  have hlen0 : 0 < R.length := by omega
  unfold cntSel
  rw [← List.countP_eq_length_filter]
  have h1 : List.countP (fun pr => pr.2 == R.getD i "") (selSeq R 0 L) =
      List.countP (fun a => a == R.getD i "")
        ((selSeq R 0 L).map Prod.snd) := by
    rw [List.countP_map]
    rfl
  rw [h1, selSeq_agents R L 0, List.countP_map]
  unfold Nat.count
  apply List.countP_congr
  intro x _
  simp only [Function.comp_apply, Nat.zero_add, beq_iff_eq,
    decide_eq_true_eq]
  have hx : x % R.length < R.length := Nat.mod_lt _ hlen0
  rw [List.getD_eq_getElem R "" hx, List.getD_eq_getElem R "" hi]
  exact hnd.getElem_inj_iff

/-- The residue-class count below `K`. -/
lemma count_mod_eval (N : Nat) (hN : 0 < N) (i : Nat) (hi : i < N) (K : Nat) :
    Nat.count (fun j => j % N = i) K =
      K / N + if i < K % N then 1 else 0 := by
  have h := Nat.count_modEq_card K hN i
  rw [Nat.mod_eq_of_lt hi] at h
  rw [← h]
  unfold Nat.count
  apply List.countP_congr
  intro x _
  simp only [decide_eq_true_eq]
  unfold Nat.ModEq
  rw [Nat.mod_eq_of_lt hi]

/-- Ceiling division: `(K + N - 1) / N = K / N + 1` when `N` does not divide `K`. -/
lemma ceil_div_eq (K N : Nat) (hN : 0 < N) (hKr : K % N ≠ 0) :
    (K + N - 1) / N = K / N + 1 := by
  have h1 : K + N - 1 = K + (N - 1) := by omega
  rw [h1, Nat.add_div hN]
  have h2 : (N - 1) / N = 0 := Nat.div_eq_of_lt (by omega)
  have h3 : (N - 1) % N = N - 1 := Nat.mod_eq_of_lt (by omega)
  have h4 : K % N < N := Nat.mod_lt _ hN
  rw [h2, h3, if_pos (by omega)]

/-- Relation `keyLe` is reflexive. -/
lemma keyLe_refl (a : Option Nat) : keyLe a a = true := by
  cases a <;> simp [keyLe]

/-- Relation `keyLe` is transitive. -/
lemma keyLe_trans (a b c : Option Nat) (hab : keyLe a b = true)
    (hbc : keyLe b c = true) : keyLe a c = true := by
  cases a <;> cases b <;> cases c <;> simp_all [keyLe]
  omega

/-- Relation `keyLe` is total. -/
lemma keyLe_total (a b : Option Nat) : (keyLe a b || keyLe b a) = true := by
  cases a <;> cases b <;> simp [keyLe]
  omega

/-- The roster is sorted by `last_chat_assigned_at`, nulls first. -/
lemma roster_sorted (P : List Profile) (s : String) :
    (rosterOf P s).Pairwise
      (fun p q => keyLe p.lastChatAssignedAt q.lastChatAssignedAt = true) := by
  unfold rosterOf
  exact @List.sorted_mergeSort Profile
    (fun p q => keyLe p.lastChatAssignedAt q.lastChatAssignedAt)
    (fun a b c hab hbc => keyLe_trans _ _ _ hab hbc)
    (fun a b => keyLe_total _ _)
    (P.filter (eligibleFor s))

/-- The roster head has the earliest (nulls-first) `last_chat_assigned_at`
among all eligible profiles of the segment. -/
lemma roster_head_min (P : List Profile) (s : String) (p₀ : Profile)
    (rest : List Profile) (hr : rosterOf P s = p₀ :: rest) :
    ∀ q ∈ P, eligibleFor s q = true →
      keyLe p₀.lastChatAssignedAt q.lastChatAssignedAt = true := by
  intro q hq he
  have hqr : q ∈ rosterOf P s := by
    unfold rosterOf
    rw [List.Perm.mem_iff (List.mergeSort_perm _ _)]
    exact List.mem_filter.mpr ⟨hq, he⟩
  rw [hr] at hqr
  rcases List.mem_cons.mp hqr with rfl | hq'
  · exact keyLe_refl _
  · have hp := roster_sorted P s
    rw [hr] at hp
    exact (List.pairwise_cons.mp hp).1 q hq'

/-- C2: Over a single-segment backlog of `K = |C|` unassigned open
conversations with an `N = |R|`-agent eligible roster (`K ≥ N ≥ 1`,
distinct ids, all commits succeeding), the run terminates and every agent
is selected either `⌊K/N⌋` or `⌈K/N⌉ = (K+N-1)/N` times; the agent
selected for the first conversation is the roster head, whose
`last_chat_assigned_at` is earliest (nulls first) among all eligible
agents at roster-fetch time. -/
theorem C2_round_robin_fairness
    (oracle : SchedOracle) (st : SchedState) (s₀ : String) (fuel : Nat)
    (R : List String) (C : List Conversation)
    (hok : ∀ cid aid, oracle.rpcOk cid aid = true)
    (hag : ∀ s, oracle.agentsErr s = false)
    (hcf : ∀ k, oracle.convFetchErr k = false)
    (hcache : st.cache = []) (htrace : st.rpcTrace = [])
    (hR : R = rosterIds st.profiles s₀)
    (hC : C = st.convs.filter (fetchPred none))
    (hseg : ∀ c ∈ C, c.segment = s₀)
    (hndC : (C.map (fun c => c.id)).Nodup)
    (hndR : R.Nodup)
    (hN : R ≠ [])
    (hKN : R.length ≤ C.length)
    (hfuel : C.length < fuel) :
    ∃ stF, runLoop oracle none fuel 0 st = .finished stF ∧
      (∀ i, i < R.length →
        cntSel stF.rpcTrace (R.getD i "") = C.length / R.length ∨
        cntSel stF.rpcTrace (R.getD i "") =
          (C.length + R.length - 1) / R.length) ∧
      (∀ c₀ p₀ rest, C.head? = some c₀ →
        rosterOf st.profiles s₀ = p₀ :: rest →
        stF.rpcTrace.head? = some (c₀.id, p₀.id) ∧
        ∀ q ∈ st.profiles, eligibleFor s₀ q = true →
          keyLe p₀.lastChatAssignedAt q.lastChatAssignedAt = true) := by
  have hlen0 : 0 < R.length := by
    cases R with
    | nil => exact absurd rfl hN
    | cons a as => simp
  obtain ⟨stF, hrun, htr⟩ := runAll_success oracle s₀ R hok hag hcf hN fuel 0
    st 0 hlen0 (Or.inr ⟨hcache, rfl, hR.symm⟩)
    (by rw [← hC]; exact hseg) (by rw [← hC]; exact hndC)
    (by rw [← hC]; exact hfuel)
  rw [htrace, ← hC, List.nil_append] at htr
  refine ⟨stF, hrun, ?_, ?_⟩
  · intro i hi
    rw [htr, cntSel_count R hndR i hi C,
      count_mod_eval R.length hlen0 i hi C.length]
    by_cases hcmp : i < C.length % R.length
    · rw [if_pos hcmp]
      right
      rw [ceil_div_eq C.length R.length hlen0 (by omega)]
    · rw [if_neg hcmp]
      left
      omega
  · intro c₀ p₀ rest hc₀ hr₀
    constructor
    · rw [htr]
      cases C with
      | nil => simp at hc₀
      | cons x xs =>
        simp only [List.head?_cons, Option.some.injEq] at hc₀
        subst hc₀
        simp only [selSeq, List.head?_cons, Option.some.injEq]
        have hR0 : R.getD (0 % R.length) "" = p₀.id := by
          rw [Nat.zero_mod, hR]
          unfold rosterIds
          rw [hr₀]
          rfl
        rw [hR0]
    · exact roster_head_min st.profiles s₀ p₀ rest hr₀

/-- A scheduler run in which every commit succeeds. -/
def allOkOracle : SchedOracle :=
  ⟨fun _ _ => true, fun _ => false, fun _ => false⟩

/-- Witness state for C2: three conversations in segment `s`, one agent. -/
def stC2 : SchedState :=
  initState [c5Conv 0, c5Conv 1, c5Conv 2] [c5Agent]

/-- Witness for C2 at a concrete single-agent, three-conversation backlog. -/
theorem C2_round_robin_fairness_witness :
    ∃ stF, runLoop allOkOracle none 4 0 stC2 = .finished stF ∧
      (∀ i, i < (["a1"] : List String).length →
        cntSel stF.rpcTrace ((["a1"] : List String).getD i "") =
          ([c5Conv 0, c5Conv 1, c5Conv 2].length /
            (["a1"] : List String).length) ∨
        cntSel stF.rpcTrace ((["a1"] : List String).getD i "") =
          (([c5Conv 0, c5Conv 1, c5Conv 2].length +
            (["a1"] : List String).length - 1) /
            (["a1"] : List String).length)) ∧
      (∀ c₀ p₀ rest, ([c5Conv 0, c5Conv 1, c5Conv 2] :
          List Conversation).head? = some c₀ →
        rosterOf stC2.profiles "s" = p₀ :: rest →
        stF.rpcTrace.head? = some (c₀.id, p₀.id) ∧
        ∀ q ∈ stC2.profiles, eligibleFor "s" q = true →
          keyLe p₀.lastChatAssignedAt q.lastChatAssignedAt = true) :=
  C2_round_robin_fairness allOkOracle stC2 "s" 4 ["a1"]
    [c5Conv 0, c5Conv 1, c5Conv 2]
    (fun _ _ => rfl) (fun _ => rfl) (fun _ => rfl) rfl rfl
    c5_roster.symm rfl
    (by
      intro c hc
      simp only [List.mem_cons, List.not_mem_nil, or_false, c5Conv] at hc
      rcases hc with rfl | rfl | rfl <;> rfl)
    (by decide)
    (by simp)
    (by simp)
    (by simp)
    (by simp)

end EdgeFn
